import Mathlib

/-!
Verification development for the `ai_doc_gen` template-mapping pipeline
(`main.py`).  The Python pipeline is shallowly embedded: documents are
lists of tables of rows of cells, Python dicts are association lists in
insertion order, exceptions are `Option`/`none`, and the external
mapping oracle is a parameter carrying its reply.  `json.loads` is
modelled by an executable recursive-descent parser `parseJson` covering
the JSON fragment the pipeline exchanges (strings, integers, booleans,
null, arrays, objects; no floats or unicode escapes).
-/

/-! ## Character utilities (Python `str` helpers) -/

/-- The character `\x7b` (opening curly brace). -/
def lbrace : Char := Char.ofNat 123

/-- The character `\x7d` (closing curly brace). -/
def rbrace : Char := Char.ofNat 125

/-- The backtick character. -/
def btick : Char := Char.ofNat 96

/-- The double-quote character. -/
def quoteCh : Char := Char.ofNat 34

/-- The backslash character. -/
def backslashCh : Char := Char.ofNat 92

/-- Whitespace as stripped by Python `str.strip()` (common subset:
space, tab, newline, carriage return). -/
def isSpaceCh (c : Char) : Bool :=
  c == ' ' || c == '\t' || c == '\n' || c == '\r'

/-- Python `str.strip()` on a character list. -/
def trimChars (cs : List Char) : List Char :=
  ((cs.dropWhile isSpaceCh).reverse.dropWhile isSpaceCh).reverse

/-- Python `str.strip()`. -/
def trimStr (s : String) : String :=
  String.mk (trimChars s.data)

/-- Python `str.strip(c)` for a single character `c`: drop every leading
and trailing occurrence of `c`. -/
def stripAll (c : Char) (cs : List Char) : List Char :=
  ((cs.dropWhile (· == c)).reverse.dropWhile (· == c)).reverse

/-- Does `needle` occur at the head of `hay`? -/
def matchesAt : List Char → List Char → Bool
  | [], _ => true
  | _ :: _, [] => false
  | a :: as, b :: bs => a == b && matchesAt as bs

/-- Python `str.find`: index of the first occurrence of `needle` in
`hay`, `none` when absent. -/
def findSub : List Char → List Char → Option Nat
  | [], needle => if needle.isEmpty then some 0 else none
  | h :: t, needle =>
    if matchesAt needle (h :: t) then some 0
    else (findSub t needle).map (· + 1)

/-- Python `os.path.basename` (POSIX separator). -/
def basename (p : String) : String :=
  (p.splitOn "/").getLastD p

/-! ## JSON values and a model of `json.loads` -/

/-- JSON values as produced by `json.loads`. -/
inductive Json where
  | null : Json
  | bool : Bool → Json
  | num : Int → Json
  | str : String → Json
  | arr : List Json → Json
  | obj : List (String × Json) → Json

/-- Decode one escape character inside a JSON string literal. -/
def decodeEsc (e : Char) : Option Char :=
  if e == quoteCh then some quoteCh
  else if e == backslashCh then some backslashCh
  else if e == '/' then some '/'
  else if e == 'n' then some '\n'
  else if e == 't' then some '\t'
  else if e == 'r' then some '\r'
  else none

/-- Parse the body of a JSON string literal (the opening quote already
consumed); returns the decoded characters and the remaining input. -/
def parseStrChars : List Char → Option (List Char × List Char)
  | [] => none
  | c :: rest =>
    if c == quoteCh then some ([], rest)
    else if c == backslashCh then
      match rest with
      | [] => none
      | e :: rest2 =>
        (decodeEsc e).bind fun d =>
          (parseStrChars rest2).map fun p => (d :: p.1, p.2)
    else (parseStrChars rest).map fun p => (c :: p.1, p.2)

/-- Skip JSON whitespace. -/
def skipWs : List Char → List Char
  | [] => []
  | c :: rest => if isSpaceCh c then skipWs rest else c :: rest

/-- Digit-string to natural number. -/
def natOfDigits (ds : List Char) : Nat :=
  ds.foldl (fun n c => n * 10 + (c.toNat - 48)) 0

/-- Parse a JSON integer (floats are rejected in this model). -/
def parseNum (cs : List Char) : Option (Json × List Char) :=
  let (neg, body) :=
    match cs with
    | c :: r => if c == '-' then (true, r) else (false, cs)
    | [] => (false, ([] : List Char))
  let ds := body.takeWhile Char.isDigit
  let rest := body.dropWhile Char.isDigit
  if ds.isEmpty then none
  else
    let n : Int := Int.ofNat (natOfDigits ds)
    let v : Json := Json.num (if neg then -n else n)
    match rest with
    | c :: _ => if c == '.' || c == 'e' || c == 'E' then none else some (v, rest)
    | [] => some (v, [])

mutual

/-- Parse one JSON value; fuel bounds the recursion depth. -/
def parseVal : Nat → List Char → Option (Json × List Char)
  | 0, _ => none
  | fuel + 1, cs =>
    match skipWs cs with
    | [] => none
    | c :: rest =>
      if c == quoteCh then
        (parseStrChars rest).map fun p => (Json.str (String.mk p.1), p.2)
      else if c == lbrace then
        match skipWs rest with
        | [] => none
        | c2 :: r2 =>
          if c2 == rbrace then some (Json.obj [], r2)
          else (parseMembers fuel (c2 :: r2)).map fun p => (Json.obj p.1, p.2)
      else if c == '[' then
        match skipWs rest with
        | [] => none
        | c2 :: r2 =>
          if c2 == ']' then some (Json.arr [], r2)
          else (parseItems fuel (c2 :: r2)).map fun p => (Json.arr p.1, p.2)
      else if c == 't' then
        if matchesAt ['r', 'u', 'e'] rest then some (Json.bool true, rest.drop 3) else none
      else if c == 'f' then
        if matchesAt ['a', 'l', 's', 'e'] rest then some (Json.bool false, rest.drop 4) else none
      else if c == 'n' then
        if matchesAt ['u', 'l', 'l'] rest then some (Json.null, rest.drop 3) else none
      else parseNum (c :: rest)

/-- Parse the members of a JSON object (after the opening brace, at
least one member present). -/
def parseMembers : Nat → List Char → Option (List (String × Json) × List Char)
  | 0, _ => none
  | fuel + 1, cs =>
    match skipWs cs with
    | [] => none
    | c :: rest =>
      if c == quoteCh then
        (parseStrChars rest).bind fun kp =>
          match skipWs kp.2 with
          | [] => none
          | c2 :: r2 =>
            if c2 == ':' then
              (parseVal fuel r2).bind fun vp =>
                match skipWs vp.2 with
                | [] => none
                | c3 :: r3 =>
                  if c3 == ',' then
                    (parseMembers fuel r3).map fun mp =>
                      ((String.mk kp.1, vp.1) :: mp.1, mp.2)
                  else if c3 == rbrace then
                    some ([(String.mk kp.1, vp.1)], r3)
                  else none
            else none
      else none

/-- Parse the items of a JSON array (after the opening bracket, at
least one item present). -/
def parseItems : Nat → List Char → Option (List Json × List Char)
  | 0, _ => none
  | fuel + 1, cs =>
    (parseVal fuel cs).bind fun vp =>
      match skipWs vp.2 with
      | [] => none
      | c :: rest =>
        if c == ',' then
          (parseItems fuel rest).map fun ip => (vp.1 :: ip.1, ip.2)
        else if c == ']' then some ([vp.1], rest)
        else none

end

/-- Model of Python `json.loads`: parse one JSON value and require that
only whitespace remains. -/
def parseJson (s : String) : Option Json :=
  match parseVal (s.data.length + 2) s.data with
  | some (v, rest) => if (skipWs rest).isEmpty then some v else none
  | none => none

example : parseJson "\x7b\"a\": \"1\"\x7d" = some (Json.obj [("a", Json.str "1")]) := rfl
example : parseJson "  \x7b \x7d " = some (Json.obj []) := rfl
example : parseJson "\x7b\"k\": [1, -2], \"b\": true\x7d"
    = some (Json.obj [("k", Json.arr [Json.num 1, Json.num (-2)]), ("b", Json.bool true)]) := rfl
example : parseJson "hello" = none := rfl
example : parseJson "\x7b\"a\": 1\x7d extra" = none := rfl

/-! ## The defensive response parser (`_extract_json_from_response`) -/

/-- The fence `三backticks` as characters. -/
def fence3 : List Char := [btick, btick, btick]

/-- The labeled fence `三backticks ++ json` as characters. -/
def fence7 : List Char := fence3 ++ ['j', 's', 'o', 'n']

/-- The markdown branch of `_extract_json_from_response`: if the content
contains a labeled fence, take the text from just after it up to the
next closing fence, stripped; fall through (`none`) when there is no
closing fence or the slice strips to empty. -/
def mdBranch (cs : List Char) : Option (List Char) :=
  match findSub cs fence7 with
  | none => none
  | some idx =>
    match findSub (cs.drop (idx + 7)) fence3 with
    | none => none
    | some off =>
      if (trimChars ((cs.drop (idx + 7)).take off)).isEmpty then none
      else some (trimChars ((cs.drop (idx + 7)).take off))

/-- The single-backtick branch: when the content both starts and ends
with a backtick, strip all outer backticks and surrounding whitespace;
fall through when the result is empty. -/
def btickBranch (cs : List Char) : Option (List Char) :=
  if cs.head? == some btick && cs.getLast? == some btick then
    if (trimChars (stripAll btick cs)).isEmpty then none
    else some (trimChars (stripAll btick cs))
  else none

/-- The balanced-brace scan: walk the characters, counting braces; at
every closing brace that returns the count to zero, try `json.loads` on
the span from the first opening brace; return the first span that
parses, else keep scanning. -/
def braceLoop : List Char → List Char → Int → Option (List Char)
  | [], _, _ => none
  | c :: rest, taken, count =>
    if c == lbrace then braceLoop rest (taken ++ [c]) (count + 1)
    else if c == rbrace then
      if count - 1 == 0 then
        if (parseJson (String.mk (taken ++ [c]))).isSome then some (taken ++ [c])
        else braceLoop rest (taken ++ [c]) (count - 1)
      else braceLoop rest (taken ++ [c]) (count - 1)
    else braceLoop rest (taken ++ [c]) count

/-- The brace-span fallback branch: locate the first opening brace and
run the balanced-brace scan from there. -/
def braceBranch (cs : List Char) : Option (List Char) :=
  match findSub cs [lbrace] with
  | none => none
  | some idx => braceLoop (cs.drop idx) [] 0

/-- Model of `AIDocGenerator._extract_json_from_response`: strip the
response, then try in order the labeled-fence branch, the backtick
branch, the balanced-brace scan, and finally the content as-is;
`none` models the `ValueError` raised when nothing works. -/
def extract_json_from_response (response : String) : Option String :=
  if (trimChars response.data).isEmpty then none
  else
    match mdBranch (trimChars response.data) with
    | some js => some (String.mk js)
    | none =>
      match btickBranch (trimChars response.data) with
      | some js => some (String.mk js)
      | none =>
        match braceBranch (trimChars response.data) with
        | some js => some (String.mk js)
        | none =>
          if (parseJson (String.mk (trimChars response.data))).isSome
          then some (String.mk (trimChars response.data)) else none

/-- The multimodal client's response handling (`stage2_1`, lines
394-397): extract the JSON string defensively, then `json.loads` it;
`none` models the exception that fails the job. -/
def stage2_1_parse (c : String) : Option Json :=
  (extract_json_from_response c).bind parseJson

/-! ## The field-mapping client's inline parsing (`stage2_5`, lines 458-464) -/

/-- The inline text extraction of `stage2_5_ai_generate_fill_data`: if
the content contains a labeled fence take
`split("three-backticks-json")[1].split("three-backticks")[0]`; else if
it starts and ends with a backtick, strip the backticks; else use the
content as-is.  There is no balanced-brace fallback here. -/
def stage2_5_textExtract (content : String) : String :=
  match findSub content.data fence7 with
  | some i =>
    String.mk (match findSub (content.data.drop (i + 7)) fence3 with
      | some k => (content.data.drop (i + 7)).take k
      | none => content.data.drop (i + 7))
  | none =>
    if content.data.head? == some btick && content.data.getLast? == some btick then
      String.mk (stripAll btick content.data)
    else content

/-- `json.loads(json_text.strip())` applied to the inline extraction. -/
def stage2_5_loads (content : String) : Option Json :=
  parseJson (trimStr (stage2_5_textExtract content))

example : stage2_5_loads "\x7b\"a\": \"1\"\x7d" = some (Json.obj [("a", Json.str "1")]) := rfl
example : stage2_5_loads "prose \x7b\"a\": \"1\"\x7d prose" = none := rfl
example : stage2_1_parse "prose \x7b\"a\": \"1\"\x7d prose" = some (Json.obj [("a", Json.str "1")]) := rfl

/-! ## Document model (python-docx as used by the pipeline) -/

/-- A table cell; its flattened text. -/
structure Cell where
  text : String
deriving DecidableEq

/-- A table row. -/
structure Row where
  cells : List Cell
deriving DecidableEq

/-- A table. -/
structure Table where
  rows : List Row
deriving DecidableEq

/-- A body paragraph, as appended by the template filler. -/
inductive Par where
  | text : String → Par
  | heading1 : String → Par
  | heading2 : String → Par
  | pageBreak : Par
  | picture : String → Par
deriving DecidableEq

/-- A Word document: its tables and its body paragraphs. -/
structure Doc where
  tables : List Table
  paragraphs : List Par
deriving DecidableEq

/-- The positional cell identifier `table_i_row_j_col_k`. -/
def cellKey (i j k : Nat) : String :=
  "table_" ++ toString i ++ "_row_" ++ toString j ++ "_col_" ++ toString k

/-! ## Stage 1: deterministic template structure extraction -/

/-- One row of the extraction traversal: each cell yields the pair
`(cellKey i j k, cell.text.strip())`. -/
def extractRow (i j : Nat) (r : Row) : List (String × String) :=
  r.cells.enum.map fun kc => (cellKey i j kc.1, trimStr kc.2.text)

/-- One table of the extraction traversal. -/
def extractTable (i : Nat) (t : Table) : List (String × String) :=
  (t.rows.enum.map fun jr => extractRow i jr.1 jr.2).flatten

/-- The full extraction traversal: tables in document order, rows
top-to-bottom, columns left-to-right. -/
def extractTables (tables : List Table) : List (String × String) :=
  (tables.enum.map fun it => extractTable it.1 it.2).flatten

/-- Model of `AIDocGenerator.stage1_analyze_template`: the ordered
mapping from positional cell identifiers to stripped cell text. -/
def stage1_analyze_template (doc : Doc) : List (String × String) :=
  extractTables doc.tables

/-! ## FillMap values -/

/-- An attachment exhibit entry: a dict with optional `title` and
`path` string fields. -/
structure Attachment where
  title : Option String
  path : Option String
deriving DecidableEq

/-- A value of the fill dict: either a string cell fill, or the list of
attachment dicts carried under the reserved key. -/
inductive PyVal where
  | str : String → PyVal
  | attList : List Attachment → PyVal
deriving DecidableEq

/-- Python `str()` of a fill value.  The rendering of an attachment
list is abbreviated: the pipeline never produces one as a cell fill in
any verified claim (the reserved entry is popped before matching). -/
def PyVal.toStr : PyVal → String
  | .str s => s
  | .attList _ => "[...]"

/-- A string fill value with no leading/trailing whitespace. -/
def PyVal.isCleanStr : PyVal → Bool
  | .str s => trimStr s == s
  | .attList _ => false

/-- Python dict lookup on the association-list model (keys of a dict
are unique, so first match is the match). -/
def fmLookup (m : List (String × PyVal)) (k : String) : Option PyVal :=
  (m.find? fun p => p.1 == k).map Prod.snd

/-! ## Stage 3: deterministic template fill -/

/-- Filling one cell: `cell.text = str(fill_data[cell_key])` when the
key is present, otherwise the cell is untouched. -/
def fillCell (m : List (String × PyVal)) (key : String) (c : Cell) : Cell :=
  match fmLookup m key with
  | some v => ⟨v.toStr⟩
  | none => c

/-- Filling one row, mirroring the extraction traversal. -/
def fillRow (m : List (String × PyVal)) (i j : Nat) (r : Row) : Row :=
  ⟨r.cells.enum.map fun kc => fillCell m (cellKey i j kc.1) kc.2⟩

/-- Filling one table. -/
def fillTable (m : List (String × PyVal)) (i : Nat) (t : Table) : Table :=
  ⟨t.rows.enum.map fun jr => fillRow m i jr.1 jr.2⟩

/-- Filling all tables; byte-identical traversal order to stage 1. -/
def fillTables (m : List (String × PyVal)) (tables : List Table) : List Table :=
  tables.enum.map fun it => fillTable m it.1 it.2

/-- The exhibit paragraphs appended for one attachment (1-based index):
a bold numbered sub-heading and then the picture, a filename note, an
error note when embedding fails, or a not-found note.  `fsx` models
`os.path.exists`, `isImg` the MIME check, `picOk` whether
`doc.add_picture` succeeds. -/
def exhibitPars (fsx isImg picOk : String → Bool) (i : Nat) (a : Attachment) :
    List Par :=
  let title := a.title.getD ("附件 " ++ toString i)
  match a.path with
  | some p =>
    if p != "" && fsx p then
      if isImg p then
        if picOk p then
          [Par.heading2 (toString i ++ ". " ++ title), Par.picture p]
        else
          [Par.heading2 (toString i ++ ". " ++ title),
           Par.text ("⚠️ 无法显示附件: " ++ basename p)]
      else
        [Par.heading2 (toString i ++ ". " ++ title),
         Par.text ("文件: " ++ basename p)]
    else
      [Par.text ("⚠️ 附件文件未找到: " ++ (if p != "" then basename p else "Unknown"))]
  | none => [Par.text ("⚠️ 附件文件未找到: Unknown")]

/-- The observable outcome of `stage3_fill_template`: the saved
document, the `N of M` completion counts, the unmatched keys reported
as non-fatal metadata, and the caller's fill dict after the call (the
function pops the reserved key from it in place). -/
structure FillResult where
  savedDoc : Doc
  filled_fields_count : Nat
  fill_total : Nat
  remaining_to_fill : List String
  fill_data_after : List (String × PyVal)
deriving DecidableEq

/-- The body of `stage3_fill_template` after the reserved entry has
been popped: overwrite every cell of the traversal whose identifier is
in the popped map, compute the `N of M` counts and the unmatched keys,
and append the attachment exhibits after an optional page break and a
bold heading. -/
def stage3_proceed (template : Doc) (popped : List (String × PyVal))
    (fsx isImg picOk : String → Bool) (attachments_data : List Attachment) :
    FillResult :=
  let newTables := fillTables popped template.tables
  let liveKeys := (extractTables template.tables).map Prod.fst
  let filled_fields_count := liveKeys.countP fun k => (fmLookup popped k).isSome
  let remaining := (popped.map Prod.fst).filter fun k => decide (k ∉ liveKeys)
  let newPars :=
    if attachments_data.isEmpty then template.paragraphs
    else
      template.paragraphs
        ++ (if template.paragraphs.length > 0 || template.tables.length > 0 then
              [Par.pageBreak] else [])
        ++ [Par.heading1 "附件"]
        ++ (attachments_data.enum.map fun ia =>
              exhibitPars fsx isImg picOk (ia.1 + 1) ia.2).flatten
  ⟨⟨newTables, newPars⟩, filled_fields_count, popped.length, remaining, popped⟩

/-- Model of `AIDocGenerator.stage3_fill_template`.  The reserved
`__attachments__` entry is popped from `fill_data` first; the rest is
`stage3_proceed`.  `none` models the exception path (a truthy non-list
reserved value crashes the attachment logging loop before any fill). -/
def stage3_fill_template (template : Doc) (fill_data : List (String × PyVal))
    (fsx isImg picOk : String → Bool) : Option FillResult :=
  match fmLookup fill_data "__attachments__" with
  | some (PyVal.str s) =>
    if s.isEmpty then
      some (stage3_proceed template
        (fill_data.filter fun p => p.1 != "__attachments__") fsx isImg picOk [])
    else none
  | some (PyVal.attList l) =>
    some (stage3_proceed template
      (fill_data.filter fun p => p.1 != "__attachments__") fsx isImg picOk l)
  | none =>
    some (stage3_proceed template
      (fill_data.filter fun p => p.1 != "__attachments__") fsx isImg picOk [])

/-! ## Stage 2.1: context assembly and multimodal extraction -/

/-- The file kind, as dispatched on extension / MIME type in the
attachment loop of `stage2_1_ai_extract_data_from_sources`. -/
inductive AttKind where
  | txt : AttKind
  | docx : AttKind
  | pdf : AttKind
  | image : AttKind
  | other : AttKind
deriving DecidableEq

/-- One attachment file: its name, its dispatch kind, whether opening
and reading it succeeds (`readable = false` models the per-file
exception that is caught and logged), its extracted text, and — for a
paginated document — the image artifacts extracted from it. -/
structure SrcFile where
  name : String
  kind : AttKind
  readable : Bool
  text : String
  pdfImages : List String
deriving DecidableEq

/-- The source-boundary marker wrapped around each text contribution. -/
def boundary (name content : String) : String :=
  "\n\n--- Content from " ++ name ++ " ---\n" ++ content ++ "\n--- End of Content ---"

/-- Processing one attachment in the unified loop: an unreadable file
is logged and skipped; text-like kinds append their marked text;
paginated documents additionally contribute their extracted images;
standalone images join the image list; unsupported kinds are skipped
with a warning. -/
def processFile (st : String × List String) (f : SrcFile) : String × List String :=
  if !f.readable then st
  else
    match f.kind with
    | .txt => (st.1 ++ boundary f.name f.text, st.2)
    | .docx => (st.1 ++ boundary f.name f.text, st.2)
    | .pdf => (st.1 ++ boundary f.name f.text, st.2 ++ f.pdfImages)
    | .image => (st.1, st.2 ++ [f.name])
    | .other => st

/-- The context payload assembled from the attachments: the prompt text
extended with every readable text source, plus the ordered image
references. -/
def assembleContext (prompt : String) (files : List SrcFile) : String × List String :=
  files.foldl processFile (prompt, [])

/-! ## The mapping oracle as an external collaborator -/

/-- The oracle's reply to one request: a message content (possibly
absent/empty), or a transport-level failure (timeout, network error)
raised by the client library. -/
inductive OracleReply where
  | content : Option String → OracleReply
  | transportError : OracleReply
deriving DecidableEq

/-- The oracle's behaviour for one generation job: its reply to the
multimodal extraction request and to the field-mapping request. -/
structure Oracle where
  extractReply : OracleReply
  mapReply : OracleReply
deriving DecidableEq

/-- Model of `stage2_1_ai_extract_data_from_sources`: assemble the
context payload, send the single request, and parse the reply with the
defensive extractor; any failure (transport error, empty content,
unextractable or unparseable JSON) raises — `none` — and the job
fails.  The reply is a parameter because the oracle is external. -/
def stage2_1_ai_extract_data_from_sources (attachment_paths : List SrcFile)
    (reply : OracleReply) : Option Json :=
  let _payload := assembleContext "" attachment_paths
  match reply with
  | .transportError => none
  | .content none => none
  | .content (some c) => if c == "" then none else stage2_1_parse c

/-- Dict lookup on parsed JSON object members. -/
def jLookup (o : List (String × Json)) (k : String) : Option Json :=
  (o.find? fun p => p.1 == k).map Prod.snd

/-- Does the Python value of this JSON have `len()`? (`str`, `list`,
`dict` do; numbers, booleans and `None` raise `TypeError`.) -/
def jHasLen : Json → Bool
  | .str _ => true
  | .arr _ => true
  | .obj _ => true
  | _ => false

/-- Model of `stage2_5_ai_generate_fill_data`'s outcome as a function
of the oracle reply.  Every failure — transport error raised by the
client call, missing/empty message content, unparseable JSON, a parsed
value that is not a dict, or a reserved entry without `len()` — is
caught by the surrounding handlers and yields the empty dict; the
function never raises. -/
def stage2_5_ai_generate_fill_data (reply : OracleReply) : Json :=
  match reply with
  | .transportError => Json.obj []
  | .content none => Json.obj []
  | .content (some c) =>
    if c == "" then Json.obj []
    else
      match stage2_5_loads c with
      | some (Json.obj o) =>
        match jLookup o "__attachments__" with
        | some v => if jHasLen v then Json.obj o else Json.obj []
        | none => Json.obj o
      | _ => Json.obj []

/-! ## Bridging parsed JSON to the fill dict -/

/-- Read a string field of a JSON object. -/
def strField (o : List (String × Json)) (k : String) : Option String :=
  match jLookup o k with
  | some (Json.str s) => some s
  | _ => none

/-- An attachment dict from a JSON value (`title`/`path` string
fields; non-dict entries carry neither). -/
def attOfJson (j : Json) : Attachment :=
  match j with
  | Json.obj o => ⟨strField o "title", strField o "path"⟩
  | _ => ⟨none, none⟩

/-- Python `str()` of a scalar JSON value; the rendering of a nested
dict is abbreviated (the oracle contract never nests one as a cell
fill in the verified claims). -/
def jsonPyStr : Json → String
  | .null => "None"
  | .bool true => "True"
  | .bool false => "False"
  | .num n => toString n
  | .str s => s
  | .arr _ => "[...]"
  | .obj _ => "\x7b...\x7d"

/-- A fill-dict value from a parsed JSON value: strings pass through,
lists become attachment lists, scalars render via `str()`. -/
def pyValOfJson : Json → PyVal
  | Json.str s => PyVal.str s
  | Json.arr l => PyVal.attList (l.map attOfJson)
  | j => PyVal.str (jsonPyStr j)

/-- The fill dict from the oracle's parsed mapping object. -/
def fillDataOfJson : Json → List (String × PyVal)
  | Json.obj o => o.map fun p => (p.1, pyValOfJson p.2)
  | _ => []

/-! ## The orchestrator (`run_generation`) -/

/-- The mapping-and-fill tail of the orchestrator: one field-mapping
oracle request, then the deterministic fill; returns the success flag
and the total number of oracle requests sent. -/
def mapAndFill (template : Doc) (_input_data : List (String × Json)) (o : Oracle)
    (fsx isImg picOk : String → Bool) (calls : Nat) : Bool × Nat :=
  let fill_data := fillDataOfJson (stage2_5_ai_generate_fill_data o.mapReply)
  match stage3_fill_template template fill_data fsx isImg picOk with
  | some _ => (true, calls + 1)
  | none => (false, calls + 1)

/-- Model of `AIDocGenerator.run_generation`: analyze the template,
resolve the input data (literal JSON if truthy, else multimodal
extraction over truthy attachments, else raise the no-data-source
`ValueError`, caught as a failed run), then map and fill.  The second
component counts the oracle requests sent during the run. -/
def run_generation (template : Doc) (attachment_paths : Option (List SrcFile))
    (direct_json_data : Option (List (String × Json))) (o : Oracle)
    (fsx isImg picOk : String → Bool) : Bool × Nat :=
  let _template_structure := stage1_analyze_template template
  match direct_json_data with
  | some (d :: ds) => mapAndFill template (d :: ds) o fsx isImg picOk 0
  | _ =>
    match attachment_paths with
    | some (f :: fs) =>
      match stage2_1_ai_extract_data_from_sources (f :: fs) o.extractReply with
      | some (Json.obj input_data) => mapAndFill template input_data o fsx isImg picOk 1
      | some _ => mapAndFill template [] o fsx isImg picOk 1
      | none => (false, 1)
    | _ => (false, 0)

/-! ## Helper lemmas: traversal alignment of extractor and filler -/

/-- Re-enumerating a list that was built by mapping over the same
enumeration aligns index-for-index. -/
theorem enumFrom_map_enumFrom {α β : Type} (g : Nat × α → β) :
    ∀ (l : List α) (n : Nat),
      List.enumFrom n ((List.enumFrom n l).map g)
      = (List.enumFrom n l).map fun p => (p.1, g p) := by
  intro l
  induction l with
  | nil => intro n; rfl
  | cons a t ih =>
    intro n
    simp only [List.enumFrom, List.map_cons]
    exact congrArg _ (ih (n + 1))

/-- The per-entry effect of the fill on the re-extracted structure. -/
def fillEntry (m : List (String × PyVal)) (p : String × String) : String × String :=
  (p.1, match fmLookup m p.1 with
        | some v => trimStr v.toStr
        | none => p.2)

/-- Row level: filling then extracting equals extracting then mapping
the per-entry effect. -/
theorem extractRow_fillRow (m : List (String × PyVal)) (i j : Nat) (r : Row) :
    extractRow i j (fillRow m i j r) = (extractRow i j r).map (fillEntry m) := by
  unfold extractRow fillRow
  simp only [List.enum]
  rw [enumFrom_map_enumFrom]
  rw [List.map_map, List.map_map]
  apply List.map_congr_left
  intro kc _
  simp only [Function.comp]
  unfold fillEntry fillCell
  cases h : fmLookup m (cellKey i j kc.1) <;> simp [h]

/-- Table level. -/
theorem extractTable_fillTable (m : List (String × PyVal)) (i : Nat) (t : Table) :
    extractTable i (fillTable m i t) = (extractTable i t).map (fillEntry m) := by
  unfold extractTable fillTable
  simp only [List.enum]
  rw [enumFrom_map_enumFrom]
  rw [List.map_map, List.map_flatten, List.map_map]
  congr 1
  apply List.map_congr_left
  intro jr _
  simp only [Function.comp]
  exact extractRow_fillRow m i jr.1 jr.2

/-- Document level: the filler's traversal is byte-identical to the
extractor's, so re-extraction after filling is exactly the per-entry
effect mapped over the original extraction. -/
theorem extractTables_fillTables (m : List (String × PyVal)) (tables : List Table) :
    extractTables (fillTables m tables) = (extractTables tables).map (fillEntry m) := by
  unfold extractTables fillTables
  simp only [List.enum]
  rw [enumFrom_map_enumFrom]
  rw [List.map_map, List.map_flatten, List.map_map]
  congr 1
  apply List.map_congr_left
  intro it _
  simp only [Function.comp]
  exact extractTable_fillTable m it.1 it.2

/-- Filling preserves the key list of the extracted structure. -/
theorem extractTables_fillTables_keys (m : List (String × PyVal)) (tables : List Table) :
    (extractTables (fillTables m tables)).map Prod.fst
    = (extractTables tables).map Prod.fst := by
  rw [extractTables_fillTables, List.map_map]
  apply List.map_congr_left
  intro p _
  rfl

/-- Every key of the extracted structure is a positional cell key. -/
theorem extractTables_key_shape (tables : List Table) :
    ∀ p ∈ extractTables tables, ∃ i j k, p.1 = cellKey i j k := by
  intro p hp
  unfold extractTables at hp
  rw [List.mem_flatten] at hp
  obtain ⟨l, hl, hpl⟩ := hp
  rw [List.mem_map] at hl
  obtain ⟨it, _, rfl⟩ := hl
  unfold extractTable at hpl
  rw [List.mem_flatten] at hpl
  obtain ⟨l2, hl2, hpl2⟩ := hpl
  rw [List.mem_map] at hl2
  obtain ⟨jr, _, rfl⟩ := hl2
  unfold extractRow at hpl2
  rw [List.mem_map] at hpl2
  obtain ⟨kc, _, rfl⟩ := hpl2
  exact ⟨it.1, jr.1, kc.1, rfl⟩

/-- A positional cell key is never the reserved attachment key. -/
theorem cellKey_ne_reserved (i j k : Nat) : cellKey i j k ≠ "__attachments__" := by
  intro h
  have hd : (cellKey i j k).data = "__attachments__".data := congrArg String.data h
  have ht : (cellKey i j k).data
      = 't' :: ("able_" ++ toString i ++ "_row_" ++ toString j ++ "_col_" ++ toString k).data := by
    rfl
  rw [ht] at hd
  have : 't' = '_' := List.head_eq_of_cons_eq hd
  exact absurd this (by decide)

/-- Enumerate-then-project is the identity. -/
theorem enumFrom_map_snd_eq {α : Type} : ∀ (l : List α) (n : Nat),
    (List.enumFrom n l).map Prod.snd = l := by
  intro l
  induction l with
  | nil => intro n; rfl
  | cons a t ih =>
    intro n
    simp only [List.enumFrom, List.map_cons]
    exact congrArg _ (ih (n + 1))

/-- Filling with the empty dict is the identity on the tables. -/
theorem fillTables_nil (tables : List Table) : fillTables [] tables = tables := by
  unfold fillTables
  have hrow : ∀ (i j : Nat) (r : Row), fillRow [] i j r = r := by
    intro i j r
    unfold fillRow
    have : (fun kc : Nat × Cell => fillCell [] (cellKey i j kc.1) kc.2)
        = fun kc : Nat × Cell => kc.2 := by
      funext kc
      rfl
    rw [this, List.enum, enumFrom_map_snd_eq]
  have htab : ∀ (i : Nat) (t : Table), fillTable [] i t = t := by
    intro i t
    unfold fillTable
    have : (fun jr : Nat × Row => fillRow [] i jr.1 jr.2)
        = fun jr : Nat × Row => jr.2 := by
      funext jr
      exact hrow i jr.1 jr.2
    rw [this, List.enum, enumFrom_map_snd_eq]
  have : (fun it : Nat × Table => fillTable [] it.1 it.2)
      = fun it : Nat × Table => it.2 := by
    funext it
    exact htab it.1 it.2
  rw [this, List.enum, enumFrom_map_snd_eq]

/-! ## Helper lemmas: dict lookup and the popped reserved entry -/

/-- A lookup is `none` exactly when no entry has the key. -/
theorem fmLookup_eq_none_iff (m : List (String × PyVal)) (k : String) :
    fmLookup m k = none ↔ ∀ p ∈ m, p.1 ≠ k := by
  unfold fmLookup
  rw [Option.map_eq_none', List.find?_eq_none]
  simp

/-- A successful lookup returns the value of a member with that key. -/
theorem fmLookup_eq_some_mem {m : List (String × PyVal)} {k : String} {v : PyVal}
    (h : fmLookup m k = some v) : (k, v) ∈ m := by
  unfold fmLookup at h
  rw [Option.map_eq_some'] at h
  obtain ⟨p, hp, hv⟩ := h
  have hmem := List.mem_of_find?_eq_some hp
  have hkey : p.1 = k := by simpa using List.find?_some hp
  have hpv : p = (k, v) := by
    cases p
    simp only [Prod.snd] at hv
    simp only [Prod.fst] at hkey
    rw [hkey, hv]
  rwa [hpv] at hmem

/-- A lookup succeeds exactly when the key occurs among the keys. -/
theorem fmLookup_isSome_iff (m : List (String × PyVal)) (k : String) :
    (fmLookup m k).isSome = true ↔ k ∈ m.map Prod.fst := by
  unfold fmLookup
  rw [Option.isSome_map']
  rw [List.find?_isSome]
  constructor
  · intro ⟨p, hp, he⟩
    rw [List.mem_map]
    exact ⟨p, hp, by simpa using he⟩
  · intro h
    rw [List.mem_map] at h
    obtain ⟨p, hp, he⟩ := h
    exact ⟨p, hp, by simpa using he⟩

/-- Removing the reserved key leaves no entry with it behind. -/
theorem fmLookup_filter_self (m : List (String × PyVal)) (r : String) :
    fmLookup (m.filter fun p => p.1 != r) r = none := by
  rw [fmLookup_eq_none_iff]
  intro p hp
  rw [List.mem_filter] at hp
  simpa using hp.2

/-- Removing the reserved key does not change any other lookup. -/
theorem fmLookup_filter_ne (m : List (String × PyVal)) (r k : String) (hk : k ≠ r) :
    fmLookup (m.filter fun p => p.1 != r) k = fmLookup m k := by
  induction m with
  | nil => rfl
  | cons p t ih =>
    by_cases hp : p.1 = r
    · rw [List.filter_cons_of_neg (by simpa using hp)]
      rw [ih]
      unfold fmLookup
      rw [List.find?_cons_of_neg]
      simp only [beq_iff_eq]
      rw [hp]
      exact fun h => hk h.symm
    · rw [List.filter_cons_of_pos (by simpa using hp)]
      unfold fmLookup
      by_cases hpk : p.1 = k
      · rw [List.find?_cons_of_pos _ (by simpa using hpk),
          List.find?_cons_of_pos _ (by simpa using hpk)]
      · rw [List.find?_cons_of_neg _ (by simpa using hpk),
          List.find?_cons_of_neg _ (by simpa using hpk)]
        exact ih

/-- The filter that pops the reserved key is the identity when the key
is absent. -/
theorem filter_reserved_eq_self (m : List (String × PyVal))
    (h : ∀ p ∈ m, p.1 ≠ "__attachments__") :
    (m.filter fun p => p.1 != "__attachments__") = m := by
  rw [List.filter_eq_self]
  intro p hp
  simpa using h p hp

/-- Lookup of the reserved key in a dict that carries it once. -/
theorem fmLookup_append_reserved (pre post : List (String × PyVal)) (v : PyVal)
    (hpre : ∀ p ∈ pre, p.1 ≠ "__attachments__") :
    fmLookup (pre ++ ("__attachments__", v) :: post) "__attachments__" = some v := by
  unfold fmLookup
  rw [List.find?_append]
  have h1 : pre.find? (fun p => p.1 == "__attachments__") = none := by
    rw [List.find?_eq_none]
    intro p hp
    simpa using hpre p hp
  rw [h1]
  rw [List.find?_cons_of_pos _ (by simp)]
  rfl

/-- Popping the reserved entry from a dict that carries it once. -/
theorem filter_append_reserved (pre post : List (String × PyVal)) (v : PyVal)
    (hpre : ∀ p ∈ pre, p.1 ≠ "__attachments__")
    (hpost : ∀ p ∈ post, p.1 ≠ "__attachments__") :
    ((pre ++ ("__attachments__", v) :: post).filter fun p => p.1 != "__attachments__")
      = pre ++ post := by
  rw [List.filter_append]
  rw [List.filter_cons_of_neg (by simp)]
  rw [filter_reserved_eq_self pre hpre, filter_reserved_eq_self post hpost]

/-! ## Helper lemmas: cell addressing -/

/-- The text of the cell at position `(i, j, k)`, when it exists. -/
def cellTextAt (tables : List Table) (i j k : Nat) : Option String :=
  (tables[i]?).bind fun t => (t.rows[j]?).bind fun r => (r.cells[k]?).map Cell.text

/-- Indexing a list built by mapping over its enumeration. -/
theorem getElem?_enumFrom_map {α β : Type} (g : Nat × α → β) (l : List α) (n i : Nat) :
    ((List.enumFrom n l).map g)[i]? = (l[i]?).map fun a => g (n + i, a) := by
  simp only [List.getElem?_map, List.getElem?_enumFrom]
  cases l[i]? <;> rfl

/-- The pointwise effect of the fill on any addressed cell. -/
theorem cellTextAt_fillTables (m : List (String × PyVal)) (tables : List Table)
    (i j k : Nat) :
    cellTextAt (fillTables m tables) i j k
    = (cellTextAt tables i j k).map fun s =>
        match fmLookup m (cellKey i j k) with
        | some v => v.toStr
        | none => s := by
  unfold cellTextAt fillTables
  rw [List.enum, getElem?_enumFrom_map]
  cases ht : tables[i]? with
  | none => rfl
  | some t =>
    simp only [Option.map_some', Option.some_bind, Nat.zero_add]
    unfold fillTable
    rw [List.enum, getElem?_enumFrom_map]
    cases hr : t.rows[j]? with
    | none => rfl
    | some r =>
      simp only [Option.map_some', Option.some_bind, Nat.zero_add]
      unfold fillRow
      rw [List.enum, getElem?_enumFrom_map]
      cases hc : r.cells[k]? with
      | none => rfl
      | some c =>
        simp only [Option.map_some', Nat.zero_add]
        unfold fillCell
        cases hv : fmLookup m (cellKey i j k) <;> simp [hv]

/-! ## Helper lemmas: the shape of a successful fill -/

/-- Any successful run of stage 3 produces exactly the `stage3_proceed`
result over the popped fill dict, for some attachment list. -/
theorem stage3_some_shape {template : Doc} {fill : List (String × PyVal)}
    {fsx isImg picOk : String → Bool} {res : FillResult}
    (h : stage3_fill_template template fill fsx isImg picOk = some res) :
    ∃ atts, res = stage3_proceed template
      (fill.filter fun p => p.1 != "__attachments__") fsx isImg picOk atts := by
  unfold stage3_fill_template at h
  split at h
  · split at h
    · exact ⟨[], ((Option.some.injEq _ _).mp h).symm⟩
    · exact absurd h (by simp)
  · exact ⟨_, ((Option.some.injEq _ _).mp h).symm⟩
  · exact ⟨[], ((Option.some.injEq _ _).mp h).symm⟩

/-- Stage 3 on the empty fill dict: the document is returned verbatim
with zero fills. -/
theorem stage3_fill_template_empty (template : Doc) (fsx isImg picOk : String → Bool) :
    stage3_fill_template template [] fsx isImg picOk = some ⟨template, 0, 0, [], []⟩ := by
  unfold stage3_fill_template stage3_proceed
  have h0 : fmLookup ([] : List (String × PyVal)) "__attachments__" = none := rfl
  rw [h0]
  simp only [List.filter_nil]
  rw [fillTables_nil]
  have hc : (List.countP (fun k => (fmLookup [] k).isSome)
      ((extractTables template.tables).map Prod.fst)) = 0 := by
    rw [List.countP_eq_zero]
    intro x _
    simp [fmLookup]
  rw [hc]
  rfl

/-- Claim C8: filling with an empty FillMap leaves the saved document
identical to the template: same extracted structure (same keys, order
and values) and no page break, heading or exhibit paragraph appended. -/
theorem c8_sparse_fill_idempotence (template : Doc) (fsx isImg picOk : String → Bool) :
    ∃ res, stage3_fill_template template [] fsx isImg picOk = some res
      ∧ res.savedDoc = template
      ∧ stage1_analyze_template res.savedDoc = stage1_analyze_template template
      ∧ res.savedDoc.paragraphs = template.paragraphs :=
  ⟨⟨template, 0, 0, [], []⟩, stage3_fill_template_empty template fsx isImg picOk,
    rfl, rfl, rfl⟩

/-- Claim C10: `stage3_fill_template` pops the reserved
`__attachments__` entry from the caller's fill dict in place: after a
successful call the dict no longer carries the reserved key, every
other entry is unchanged (the post-state is exactly the original dict
with the reserved entry removed), and the `M` denominator of the
`N of M` fill count is the size of the dict without that entry. -/
theorem c10_fill_data_mutation (template : Doc) (fill : List (String × PyVal))
    (fsx isImg picOk : String → Bool) (res : FillResult)
    (h : stage3_fill_template template fill fsx isImg picOk = some res) :
    fmLookup res.fill_data_after "__attachments__" = none
    ∧ (∀ k, k ≠ "__attachments__" → fmLookup res.fill_data_after k = fmLookup fill k)
    ∧ res.fill_data_after = (fill.filter fun p => p.1 != "__attachments__")
    ∧ res.fill_total = res.fill_data_after.length := by
  obtain ⟨atts, rfl⟩ := stage3_some_shape h
  refine ⟨?_, ?_, rfl, rfl⟩
  · exact fmLookup_filter_self fill "__attachments__"
  · intro k hk
    exact fmLookup_filter_ne fill "__attachments__" k hk

/-- Witness for C10 at a concrete template and fill dict carrying the
reserved entry. -/
theorem c10_fill_data_mutation_witness :
    fmLookup (FillResult.fill_data_after
        ⟨⟨[Table.mk [Row.mk [Cell.mk "n"]]], []⟩, 0, 2,
          ["a", "b"], [("a", PyVal.str "x"), ("b", PyVal.str "y")]⟩) "__attachments__" = none
    ∧ (∀ k, k ≠ "__attachments__" →
        fmLookup (FillResult.fill_data_after
          ⟨⟨[Table.mk [Row.mk [Cell.mk "n"]]], []⟩, 0, 2,
            ["a", "b"], [("a", PyVal.str "x"), ("b", PyVal.str "y")]⟩) k
        = fmLookup [("a", PyVal.str "x"), ("__attachments__", PyVal.attList []),
            ("b", PyVal.str "y")] k)
    ∧ FillResult.fill_data_after
        ⟨⟨[Table.mk [Row.mk [Cell.mk "n"]]], []⟩, 0, 2,
          ["a", "b"], [("a", PyVal.str "x"), ("b", PyVal.str "y")]⟩
      = ([("a", PyVal.str "x"), ("__attachments__", PyVal.attList []),
          ("b", PyVal.str "y")].filter fun p => p.1 != "__attachments__")
    ∧ FillResult.fill_total
        ⟨⟨[Table.mk [Row.mk [Cell.mk "n"]]], []⟩, 0, 2,
          ["a", "b"], [("a", PyVal.str "x"), ("b", PyVal.str "y")]⟩
      = (FillResult.fill_data_after
          ⟨⟨[Table.mk [Row.mk [Cell.mk "n"]]], []⟩, 0, 2,
            ["a", "b"], [("a", PyVal.str "x"), ("b", PyVal.str "y")]⟩).length :=
  c10_fill_data_mutation ⟨[Table.mk [Row.mk [Cell.mk "n"]]], []⟩
    [("a", PyVal.str "x"), ("__attachments__", PyVal.attList []), ("b", PyVal.str "y")]
    (fun _ => false) (fun _ => false) (fun _ => false)
    ⟨⟨[Table.mk [Row.mk [Cell.mk "n"]]], []⟩, 0, 2,
      ["a", "b"], [("a", PyVal.str "x"), ("b", PyVal.str "y")]⟩
    (by decide)

/-- Claim C2: a FillMap carrying the reserved `__attachments__` key
never has that entry written into any table cell: the entry is popped
before cell matching, the tables of the output are exactly the tables
filled from the dict without the reserved entry (whose lookup of the
reserved key is `none`), and any cell whose positional identifier
coincided with the reserved key's string form keeps its original
text. -/
theorem c2_attachment_key_isolation (template : Doc) (pre post : List (String × PyVal))
    (l : List Attachment) (fsx isImg picOk : String → Bool)
    (hpre : ∀ p ∈ pre, p.1 ≠ "__attachments__")
    (hpost : ∀ p ∈ post, p.1 ≠ "__attachments__") :
    ∃ res, stage3_fill_template template
        (pre ++ ("__attachments__", PyVal.attList l) :: post) fsx isImg picOk = some res
      ∧ res.savedDoc.tables = fillTables (pre ++ post) template.tables
      ∧ fmLookup (pre ++ post) "__attachments__" = none
      ∧ ∀ i j k, cellKey i j k = "__attachments__" →
          cellTextAt res.savedDoc.tables i j k = cellTextAt template.tables i j k := by
  have hv := fmLookup_append_reserved pre post (PyVal.attList l) hpre
  have hfilter := filter_append_reserved pre post (PyVal.attList l) hpre hpost
  have hnone : fmLookup (pre ++ post) "__attachments__" = none := by
    rw [fmLookup_eq_none_iff]
    intro p hp
    rcases List.mem_append.mp hp with h | h
    exacts [hpre p h, hpost p h]
  refine ⟨stage3_proceed template (pre ++ post) fsx isImg picOk l, ?_, rfl, hnone, ?_⟩
  · unfold stage3_fill_template
    rw [hv, hfilter]
  · intro i j k hk
    have htab : (stage3_proceed template (pre ++ post) fsx isImg picOk l).savedDoc.tables
        = fillTables (pre ++ post) template.tables := rfl
    rw [htab, cellTextAt_fillTables, hk, hnone]
    cases cellTextAt template.tables i j k <;> rfl

/-- Witness for C2 at a concrete template whose single cell would
otherwise be overwritten, with the reserved entry between two ordinary
entries. -/
theorem c2_attachment_key_isolation_witness :
    ∃ res, stage3_fill_template ⟨[Table.mk [Row.mk [Cell.mk "label"]]], [Par.text "p"]⟩
        ([("a", PyVal.str "x")] ++ ("__attachments__",
            PyVal.attList [⟨some "t", some "/missing.png"⟩]) :: [("b", PyVal.str "y")])
        (fun _ => false) (fun _ => false) (fun _ => false) = some res
      ∧ res.savedDoc.tables
          = fillTables ([("a", PyVal.str "x")] ++ [("b", PyVal.str "y")])
              (Doc.tables ⟨[Table.mk [Row.mk [Cell.mk "label"]]], [Par.text "p"]⟩)
      ∧ fmLookup ([("a", PyVal.str "x")] ++ [("b", PyVal.str "y")]) "__attachments__" = none
      ∧ ∀ i j k, cellKey i j k = "__attachments__" →
          cellTextAt res.savedDoc.tables i j k
            = cellTextAt (Doc.tables ⟨[Table.mk [Row.mk [Cell.mk "label"]]], [Par.text "p"]⟩) i j k :=
  c2_attachment_key_isolation ⟨[Table.mk [Row.mk [Cell.mk "label"]]], [Par.text "p"]⟩
    [("a", PyVal.str "x")] [("b", PyVal.str "y")]
    [⟨some "t", some "/missing.png"⟩]
    (fun _ => false) (fun _ => false) (fun _ => false)
    (by decide) (by decide)

/-- Claim C9: with a FillMap containing both keys that match live cells
and keys that match none, stage 3 still saves an output document: every
matching key's cell is overwritten with its mapped value, the unmatched
keys are reported as the non-fatal `remaining_to_fill` metadata of the
`N of M` completion report, and no error is raised. -/
theorem c9_partial_match_tolerance (template : Doc) (fill : List (String × PyVal))
    (fsx isImg picOk : String → Bool)
    (hnores : ∀ p ∈ fill, p.1 ≠ "__attachments__")
    (hmatched : ∃ p ∈ fill, p.1 ∈ (stage1_analyze_template template).map Prod.fst)
    (hunmatched : ∃ p ∈ fill, p.1 ∉ (stage1_analyze_template template).map Prod.fst) :
    ∃ res, stage3_fill_template template fill fsx isImg picOk = some res
      ∧ (∀ i j k v, fmLookup fill (cellKey i j k) = some v →
          cellTextAt res.savedDoc.tables i j k
            = (cellTextAt template.tables i j k).map fun _ => v.toStr)
      ∧ (∀ k, k ∈ res.remaining_to_fill ↔
          k ∈ fill.map Prod.fst ∧ k ∉ (stage1_analyze_template template).map Prod.fst)
      ∧ res.filled_fields_count
          = ((stage1_analyze_template template).map Prod.fst).countP
              (fun k => (fmLookup fill k).isSome)
      ∧ res.fill_total = fill.length
      ∧ res.remaining_to_fill ≠ [] := by
  have hnone : fmLookup fill "__attachments__" = none :=
    (fmLookup_eq_none_iff fill "__attachments__").mpr hnores
  have hfil : (fill.filter fun p => p.1 != "__attachments__") = fill :=
    filter_reserved_eq_self fill hnores
  refine ⟨stage3_proceed template fill fsx isImg picOk [], ?_, ?_, ?_, rfl, rfl, ?_⟩
  · unfold stage3_fill_template
    rw [hnone, hfil]
  · intro i j k v hv
    have htab : (stage3_proceed template fill fsx isImg picOk []).savedDoc.tables
        = fillTables fill template.tables := rfl
    rw [htab, cellTextAt_fillTables, hv]
  · intro k
    have hrem : (stage3_proceed template fill fsx isImg picOk []).remaining_to_fill
        = (fill.map Prod.fst).filter
            fun k => decide (k ∉ (extractTables template.tables).map Prod.fst) := rfl
    rw [hrem, List.mem_filter]
    simp [stage1_analyze_template]
  · obtain ⟨p, hp, hnotin⟩ := hunmatched
    intro hempty
    have hmem : p.1 ∈ (stage3_proceed template fill fsx isImg picOk []).remaining_to_fill := by
      have hrem : (stage3_proceed template fill fsx isImg picOk []).remaining_to_fill
          = (fill.map Prod.fst).filter
              fun k => decide (k ∉ (extractTables template.tables).map Prod.fst) := rfl
      rw [hrem, List.mem_filter]
      refine ⟨List.mem_map.mpr ⟨p, hp, rfl⟩, ?_⟩
      simpa [stage1_analyze_template] using hnotin
    rw [hempty] at hmem
    exact absurd hmem (List.not_mem_nil p.1)

/-- Witness for C9 at a template with one cell, a fill dict with one
matching and one unmatched key. -/
theorem c9_partial_match_tolerance_witness :
    ∃ res, stage3_fill_template ⟨[Table.mk [Row.mk [Cell.mk "Name"]]], []⟩
        [("table_0_row_0_col_0", PyVal.str "v"), ("nope", PyVal.str "w")]
        (fun _ => false) (fun _ => false) (fun _ => false) = some res
      ∧ (∀ i j k v, fmLookup [("table_0_row_0_col_0", PyVal.str "v"),
            ("nope", PyVal.str "w")] (cellKey i j k) = some v →
          cellTextAt res.savedDoc.tables i j k
            = (cellTextAt (Doc.tables ⟨[Table.mk [Row.mk [Cell.mk "Name"]]], []⟩) i j k).map
                fun _ => v.toStr)
      ∧ (∀ k, k ∈ res.remaining_to_fill ↔
          k ∈ ([("table_0_row_0_col_0", PyVal.str "v"),
              ("nope", PyVal.str "w")].map Prod.fst)
            ∧ k ∉ (stage1_analyze_template
                ⟨[Table.mk [Row.mk [Cell.mk "Name"]]], []⟩).map Prod.fst)
      ∧ res.filled_fields_count
          = ((stage1_analyze_template ⟨[Table.mk [Row.mk [Cell.mk "Name"]]], []⟩).map
              Prod.fst).countP
              (fun k => (fmLookup [("table_0_row_0_col_0", PyVal.str "v"),
                ("nope", PyVal.str "w")] k).isSome)
      ∧ res.fill_total = ([("table_0_row_0_col_0", PyVal.str "v"),
          ("nope", PyVal.str "w")] : List (String × PyVal)).length
      ∧ res.remaining_to_fill ≠ [] :=
  c9_partial_match_tolerance ⟨[Table.mk [Row.mk [Cell.mk "Name"]]], []⟩
    [("table_0_row_0_col_0", PyVal.str "v"), ("nope", PyVal.str "w")]
    (fun _ => false) (fun _ => false) (fun _ => false)
    (by decide) (by decide) (by decide)

/-- Claim C1: for a FillMap whose keys are exactly the extracted
structure's keys, each mapped to a distinct whitespace-clean sentinel
string, filling and re-extracting the saved output yields a structure
with exactly the same keys in the same traversal order, each mapped to
its sentinel — the extractor's and filler's traversal orders agree
key-for-key. -/
theorem c1_fill_round_trip (template : Doc) (fill : List (String × PyVal))
    (fsx isImg picOk : String → Bool)
    (hkeys : fill.map Prod.fst = (stage1_analyze_template template).map Prod.fst)
    (hvals : ∀ p ∈ fill, p.2.isCleanStr = true)
    (hdistinct : (fill.map Prod.snd).Nodup) :
    ∃ res, stage3_fill_template template fill fsx isImg picOk = some res
      ∧ (stage1_analyze_template res.savedDoc).map Prod.fst
          = (stage1_analyze_template template).map Prod.fst
      ∧ ∀ p ∈ stage1_analyze_template res.savedDoc,
          fmLookup fill p.1 = some (PyVal.str p.2) := by
  have hshape : ∀ p ∈ stage1_analyze_template template, ∃ i j k, p.1 = cellKey i j k :=
    extractTables_key_shape template.tables
  have hnores : ∀ p ∈ fill, p.1 ≠ "__attachments__" := by
    intro p hp heq
    have hmem : p.1 ∈ (stage1_analyze_template template).map Prod.fst := by
      rw [← hkeys]
      exact List.mem_map.mpr ⟨p, hp, rfl⟩
    obtain ⟨q, hq, hq1⟩ := List.mem_map.mp hmem
    obtain ⟨i, j, k, hk⟩ := hshape q hq
    exact cellKey_ne_reserved i j k (by rw [← hk, hq1, heq])
  have hnone : fmLookup fill "__attachments__" = none :=
    (fmLookup_eq_none_iff fill "__attachments__").mpr hnores
  have hfil : (fill.filter fun p => p.1 != "__attachments__") = fill :=
    filter_reserved_eq_self fill hnores
  refine ⟨stage3_proceed template fill fsx isImg picOk [], ?_, ?_, ?_⟩
  · unfold stage3_fill_template
    rw [hnone, hfil]
  · have hdoc : stage1_analyze_template
        (stage3_proceed template fill fsx isImg picOk []).savedDoc
        = extractTables (fillTables fill template.tables) := rfl
    rw [hdoc, extractTables_fillTables_keys]
    rfl
  · intro p hp
    have hdoc : stage1_analyze_template
        (stage3_proceed template fill fsx isImg picOk []).savedDoc
        = extractTables (fillTables fill template.tables) := rfl
    rw [hdoc, extractTables_fillTables] at hp
    obtain ⟨q, hq, rfl⟩ := List.mem_map.mp hp
    have hqmem : q.1 ∈ fill.map Prod.fst := by
      rw [hkeys]
      exact List.mem_map.mpr ⟨q, hq, rfl⟩
    have hsome : (fmLookup fill q.1).isSome = true :=
      (fmLookup_isSome_iff fill q.1).mpr hqmem
    obtain ⟨v, hv⟩ := Option.isSome_iff_exists.mp hsome
    have hvmem : (q.1, v) ∈ fill := fmLookup_eq_some_mem hv
    have hclean : v.isCleanStr = true := hvals (q.1, v) hvmem
    cases v with
    | attList l => exact absurd hclean (by simp [PyVal.isCleanStr])
    | str s =>
      have hts : trimStr s = s := by
        have := hclean
        simpa [PyVal.isCleanStr] using this
      unfold fillEntry
      rw [hv]
      simp only [PyVal.toStr]
      rw [hts]

/-- Witness for C1 at a one-row, two-column template with distinct
clean sentinels. -/
theorem c1_fill_round_trip_witness :
    ∃ res, stage3_fill_template ⟨[Table.mk [Row.mk [Cell.mk "Name", Cell.mk " "]]], []⟩
        [("table_0_row_0_col_0", PyVal.str "S1"), ("table_0_row_0_col_1", PyVal.str "S2")]
        (fun _ => false) (fun _ => false) (fun _ => false) = some res
      ∧ (stage1_analyze_template res.savedDoc).map Prod.fst
          = (stage1_analyze_template
              ⟨[Table.mk [Row.mk [Cell.mk "Name", Cell.mk " "]]], []⟩).map Prod.fst
      ∧ ∀ p ∈ stage1_analyze_template res.savedDoc,
          fmLookup [("table_0_row_0_col_0", PyVal.str "S1"),
            ("table_0_row_0_col_1", PyVal.str "S2")] p.1 = some (PyVal.str p.2) :=
  c1_fill_round_trip ⟨[Table.mk [Row.mk [Cell.mk "Name", Cell.mk " "]]], []⟩
    [("table_0_row_0_col_0", PyVal.str "S1"), ("table_0_row_0_col_1", PyVal.str "S2")]
    (fun _ => false) (fun _ => false) (fun _ => false)
    (by decide) (by decide) (by decide)

/-! ## Helper lemmas: the orchestrator -/

/-- When the field-mapping stage yields the empty dict, the map-and-fill
tail succeeds with one more oracle request and zero fields filled. -/
theorem mapAndFill_empty_fill (template : Doc) (input : List (String × Json)) (o : Oracle)
    (fsx isImg picOk : String → Bool) (calls : Nat)
    (h : stage2_5_ai_generate_fill_data o.mapReply = Json.obj []) :
    mapAndFill template input o fsx isImg picOk calls = (true, calls + 1) := by
  unfold mapAndFill
  rw [h]
  simp only [show fillDataOfJson (Json.obj []) = ([] : List (String × PyVal)) from rfl,
    stage3_fill_template_empty]

/-- The map-and-fill tail always sends exactly one more oracle
request. -/
theorem mapAndFill_snd (template : Doc) (input : List (String × Json)) (o : Oracle)
    (fsx isImg picOk : String → Bool) (calls : Nat) :
    (mapAndFill template input o fsx isImg picOk calls).2 = calls + 1 := by
  unfold mapAndFill
  cases h3 : stage3_fill_template template
      (fillDataOfJson (stage2_5_ai_generate_fill_data o.mapReply)) fsx isImg picOk <;>
    simp [h3]

/-- Claim C5: with neither truthy literal data nor truthy attachments,
the orchestrator fails immediately and sends no oracle request. -/
theorem c5_no_data_source_rejection (template : Doc)
    (attachment_paths : Option (List SrcFile))
    (direct_json_data : Option (List (String × Json)))
    (o : Oracle) (fsx isImg picOk : String → Bool)
    (hd : direct_json_data = none ∨ direct_json_data = some [])
    (ha : attachment_paths = none ∨ attachment_paths = some []) :
    run_generation template attachment_paths direct_json_data o fsx isImg picOk
      = (false, 0) := by
  unfold run_generation
  rcases hd with rfl | rfl <;> rcases ha with rfl | rfl <;> rfl

/-- Witness for C5 at a concrete empty invocation. -/
theorem c5_no_data_source_rejection_witness :
    run_generation ⟨[], []⟩ none none
      ⟨OracleReply.transportError, OracleReply.transportError⟩
      (fun _ => false) (fun _ => false) (fun _ => false) = (false, 0) :=
  c5_no_data_source_rejection ⟨[], []⟩ none none
    ⟨OracleReply.transportError, OracleReply.transportError⟩
    (fun _ => false) (fun _ => false) (fun _ => false) (Or.inl rfl) (Or.inl rfl)

/-- Counterexample to claim C6 as stated: a transport error raised
during the field-mapping oracle call is NOT fatal — `stage2_5`'s
blanket `except` absorbs it into an empty FillMap and the run succeeds
(`true`, one request), contradicting the claim that such errors make
the job report failure. -/
theorem c6_transport_error_counterexample :
    run_generation ⟨[], []⟩ none (some [("a", Json.str "b")])
      ⟨OracleReply.transportError, OracleReply.transportError⟩
      (fun _ => false) (fun _ => false) (fun _ => false) = (true, 1) := rfl

/-- Claim C6 amended: a transport error during the multimodal
extraction call is fatal (the run fails after exactly one request, with
no retry); a transport error during the field-mapping call is absorbed
into an empty FillMap and the run succeeds, again after exactly one
request with no retry. -/
theorem c6_transport_error_amended (template : Doc) (o : Oracle)
    (files : List SrcFile) (direct : List (String × Json))
    (fsx isImg picOk : String → Bool) (hf : files ≠ []) (hd : direct ≠ []) :
    (o.extractReply = OracleReply.transportError →
      run_generation template (some files) none o fsx isImg picOk = (false, 1))
    ∧ (o.mapReply = OracleReply.transportError →
      run_generation template none (some direct) o fsx isImg picOk = (true, 1)) := by
  obtain ⟨er, mr⟩ := o
  constructor
  · intro he
    simp only at he
    subst he
    cases files with
    | nil => exact absurd rfl hf
    | cons f fs => rfl
  · intro hm
    simp only at hm
    subst hm
    cases direct with
    | nil => exact absurd rfl hd
    | cons d ds =>
      unfold run_generation
      exact mapAndFill_empty_fill template (d :: ds) ⟨er, OracleReply.transportError⟩
        fsx isImg picOk 0 rfl

/-- Witness for the amended C6 at concrete inputs. -/
theorem c6_transport_error_amended_witness :
    ((Oracle.mk OracleReply.transportError OracleReply.transportError).extractReply
        = OracleReply.transportError →
      run_generation ⟨[], []⟩ (some [⟨"a.txt", AttKind.txt, true, "hi", []⟩]) none
        ⟨OracleReply.transportError, OracleReply.transportError⟩
        (fun _ => false) (fun _ => false) (fun _ => false) = (false, 1))
    ∧ ((Oracle.mk OracleReply.transportError OracleReply.transportError).mapReply
        = OracleReply.transportError →
      run_generation ⟨[], []⟩ none (some [("a", Json.str "b")])
        ⟨OracleReply.transportError, OracleReply.transportError⟩
        (fun _ => false) (fun _ => false) (fun _ => false) = (true, 1)) :=
  c6_transport_error_amended ⟨[], []⟩
    ⟨OracleReply.transportError, OracleReply.transportError⟩
    [⟨"a.txt", AttKind.txt, true, "hi", []⟩] [("a", Json.str "b")]
    (fun _ => false) (fun _ => false) (fun _ => false)
    (List.cons_ne_nil _ _) (List.cons_ne_nil _ _)

/-- Counterexample to claim C7 as stated: with a single unreadable
attachment (so no attachment at all could be processed) and no literal
data, the pipeline does NOT refuse to proceed — it still sends the
multimodal oracle request (one request is counted), contradicting the
claimed refusal. -/
theorem c7_attachment_degradation_counterexample :
    run_generation ⟨[], []⟩ (some [⟨"a.txt", AttKind.txt, false, "", []⟩]) none
      ⟨OracleReply.transportError, OracleReply.transportError⟩
      (fun _ => false) (fun _ => false) (fun _ => false) = (false, 1) := rfl

/-- Claim C7 amended: an error opening or reading one attachment
degrades only that attachment — the assembled payload is exactly the
payload of the remaining attachments — but even when no attachment
could be processed the orchestrator still sends the multimodal oracle
request (at least one request is always sent in attachment mode). -/
theorem c7_attachment_degradation_amended (prompt : String) (pre post : List SrcFile)
    (bad : SrcFile) (template : Doc) (files : List SrcFile) (o : Oracle)
    (fsx isImg picOk : String → Bool)
    (hbad : bad.readable = false) (hne : files ≠ []) :
    assembleContext prompt (pre ++ bad :: post) = assembleContext prompt (pre ++ post)
    ∧ 1 ≤ (run_generation template (some files) none o fsx isImg picOk).2 := by
  constructor
  · unfold assembleContext
    rw [List.foldl_append, List.foldl_append, List.foldl_cons]
    congr 1
    simp [processFile, hbad]
  · cases files with
    | nil => exact absurd rfl hne
    | cons f fs =>
      unfold run_generation
      cases h21 : stage2_1_ai_extract_data_from_sources (f :: fs) o.extractReply with
      | none => simp [h21]
      | some j => cases j <;> simp [h21, mapAndFill_snd]

/-- Witness for the amended C7 at concrete inputs. -/
theorem c7_attachment_degradation_amended_witness :
    assembleContext "P" ([⟨"t.txt", AttKind.txt, true, "ok", []⟩]
        ++ ⟨"b.pdf", AttKind.pdf, false, "x", ["i.png"]⟩ :: [])
      = assembleContext "P" ([⟨"t.txt", AttKind.txt, true, "ok", []⟩] ++ [])
    ∧ 1 ≤ (run_generation ⟨[], []⟩
        (some [⟨"b.pdf", AttKind.pdf, false, "x", ["i.png"]⟩]) none
        ⟨OracleReply.transportError, OracleReply.transportError⟩
        (fun _ => false) (fun _ => false) (fun _ => false)).2 :=
  c7_attachment_degradation_amended "P" [⟨"t.txt", AttKind.txt, true, "ok", []⟩] []
    ⟨"b.pdf", AttKind.pdf, false, "x", ["i.png"]⟩ ⟨[], []⟩
    [⟨"b.pdf", AttKind.pdf, false, "x", ["i.png"]⟩]
    ⟨OracleReply.transportError, OracleReply.transportError⟩
    (fun _ => false) (fun _ => false) (fun _ => false) (by decide) (List.cons_ne_nil _ _)

/-- Claim C4: when no valid JSON object can be recovered from the
oracle's response, field-mapping mode fails softly — the stage returns
the empty dict and the run proceeds through fill-back with zero fields
and succeeds — while multimodal extraction mode fails hard — the stage
raises and the job fails. -/
theorem c4_unparseable_soft_hard (template : Doc) (cMap cExt : String)
    (direct : List (String × Json)) (files : List SrcFile)
    (eR : OracleReply) (fsx isImg picOk : String → Bool)
    (hdir : direct ≠ []) (hfiles : files ≠ [])
    (hMapNe : cMap ≠ "") (hMap : stage2_5_loads cMap = none)
    (hExtNe : cExt ≠ "") (hExt : stage2_1_parse cExt = none) :
    stage2_5_ai_generate_fill_data (OracleReply.content (some cMap)) = Json.obj []
    ∧ run_generation template none (some direct) ⟨eR, OracleReply.content (some cMap)⟩
        fsx isImg picOk = (true, 1)
    ∧ stage2_1_ai_extract_data_from_sources files (OracleReply.content (some cExt)) = none
    ∧ run_generation template (some files) none
        ⟨OracleReply.content (some cExt), OracleReply.content (some cMap)⟩
        fsx isImg picOk = (false, 1) := by
  have hbM : (cMap == "") = false := by
    simpa using hMapNe
  have hbE : (cExt == "") = false := by
    simpa using hExtNe
  have h25 : stage2_5_ai_generate_fill_data (OracleReply.content (some cMap))
      = Json.obj [] := by
    unfold stage2_5_ai_generate_fill_data
    simp [hbM, hMap]
  have h21 : stage2_1_ai_extract_data_from_sources files (OracleReply.content (some cExt))
      = none := by
    unfold stage2_1_ai_extract_data_from_sources
    simp [hbE, hExt]
  refine ⟨h25, ?_, h21, ?_⟩
  · cases direct with
    | nil => exact absurd rfl hdir
    | cons d ds =>
      unfold run_generation
      exact mapAndFill_empty_fill template (d :: ds) ⟨eR, OracleReply.content (some cMap)⟩
        fsx isImg picOk 0 h25
  · cases files with
    | nil => exact absurd rfl hfiles
    | cons f fs =>
      unfold run_generation
      simp [h21]

/-- Witness for C4 at a concrete non-JSON oracle reply. -/
theorem c4_unparseable_soft_hard_witness :
    stage2_5_ai_generate_fill_data (OracleReply.content (some "no json here")) = Json.obj []
    ∧ run_generation ⟨[], []⟩ none (some [("a", Json.str "b")])
        ⟨OracleReply.content (some "x"), OracleReply.content (some "no json here")⟩
        (fun _ => false) (fun _ => false) (fun _ => false) = (true, 1)
    ∧ stage2_1_ai_extract_data_from_sources [⟨"a.txt", AttKind.txt, true, "t", []⟩]
        (OracleReply.content (some "no json here")) = none
    ∧ run_generation ⟨[], []⟩ (some [⟨"a.txt", AttKind.txt, true, "t", []⟩]) none
        ⟨OracleReply.content (some "no json here"),
          OracleReply.content (some "no json here")⟩
        (fun _ => false) (fun _ => false) (fun _ => false) = (false, 1) :=
  c4_unparseable_soft_hard ⟨[], []⟩ "no json here" "no json here"
    [("a", Json.str "b")] [⟨"a.txt", AttKind.txt, true, "t", []⟩]
    (OracleReply.content (some "x"))
    (fun _ => false) (fun _ => false) (fun _ => false)
    (List.cons_ne_nil _ _) (List.cons_ne_nil _ _) (by decide) (by rfl) (by decide) (by rfl)

/-! ## Helper lemmas for the defensive response parser -/

/-- `String.append` acts as list append on the character data. -/
theorem data_append (a b : String) : (a ++ b).data = a.data ++ b.data := rfl

/-- A needle matches at the head of its own extension. -/
theorem matchesAt_append_self (needle rest : List Char) :
    matchesAt needle (needle ++ rest) = true := by
  induction needle with
  | nil => rfl
  | cons a t ih => simp [matchesAt, ih]

/-- `findSub` misses when the needle's first character is absent. -/
theorem findSub_none_headfree (b : Char) (nt : List Char) :
    ∀ cs : List Char, b ∉ cs → findSub cs (b :: nt) = none := by
  intro cs
  induction cs with
  | nil => intro _; rfl
  | cons x t ih =>
    intro h
    have hxb : (b == x) = false :=
      beq_eq_false_iff_ne.mpr (List.ne_of_not_mem_cons h)
    have hm : matchesAt (b :: nt) (x :: t) = false := by
      simp [matchesAt, hxb]
    unfold findSub
    rw [hm]
    simp only [Bool.false_eq_true, if_false]
    rw [ih (List.not_mem_of_not_mem_cons h)]
    rfl

/-- The first occurrence of the closing fence after btick-free text is
at the very end. -/
theorem findSub_fence3_at_end (a : List Char) (h : btick ∉ a) :
    findSub (a ++ fence3) fence3 = some a.length := by
  induction a with
  | nil => decide
  | cons x t ih =>
    have hxb : (btick == x) = false :=
      beq_eq_false_iff_ne.mpr (List.ne_of_not_mem_cons h)
    have hm : matchesAt fence3 ((x :: t) ++ fence3) = false := by
      show matchesAt (btick :: [btick, btick]) (x :: (t ++ fence3)) = false
      simp [matchesAt, hxb]
    show findSub (x :: (t ++ fence3)) fence3 = some (t.length + 1)
    unfold findSub
    rw [show (x :: (t ++ fence3)) = (x :: t) ++ fence3 from rfl, hm]
    simp only [Bool.false_eq_true, if_false]
    rw [ih (List.not_mem_of_not_mem_cons h)]
    rfl

/-- The first occurrence of a single character after text free of it is
at the boundary. -/
theorem findSub_single_at (c : Char) (b : List Char) :
    ∀ a : List Char, c ∉ a → findSub (a ++ c :: b) [c] = some a.length := by
  intro a
  induction a with
  | nil =>
    intro _
    show findSub (c :: b) [c] = some 0
    unfold findSub
    simp [matchesAt]
  | cons x t ih =>
    intro h
    have hxc : (c == x) = false :=
      beq_eq_false_iff_ne.mpr (List.ne_of_not_mem_cons h)
    have hm : matchesAt [c] ((x :: t) ++ c :: b) = false := by
      show matchesAt [c] (x :: (t ++ c :: b)) = false
      simp [matchesAt, hxc]
    show findSub (x :: (t ++ c :: b)) [c] = some (t.length + 1)
    unfold findSub
    rw [show (x :: (t ++ c :: b)) = (x :: t) ++ c :: b from rfl, hm]
    simp only [Bool.false_eq_true, if_false]
    rw [ih (List.not_mem_of_not_mem_cons h)]
    rfl

/-- No labeled fence occurs in btick-free text followed by one btick. -/
theorem findSub_fence7_tail_none (cs : List Char) (h : btick ∉ cs) :
    findSub (cs ++ [btick]) fence7 = none := by
  induction cs with
  | nil => decide
  | cons x t ih =>
    have hxb : (btick == x) = false :=
      beq_eq_false_iff_ne.mpr (List.ne_of_not_mem_cons h)
    have hm : matchesAt fence7 ((x :: t) ++ [btick]) = false := by
      show matchesAt (btick :: ([btick, btick] ++ ['j', 's', 'o', 'n']))
        (x :: (t ++ [btick])) = false
      simp [matchesAt, hxb]
    show findSub (x :: (t ++ [btick])) fence7 = none
    unfold findSub
    rw [show (x :: (t ++ [btick])) = (x :: t) ++ [btick] from rfl, hm]
    simp only [Bool.false_eq_true, if_false]
    rw [ih (List.not_mem_of_not_mem_cons h)]
    rfl

/-- No labeled fence occurs in a single-btick wrap of btick-free
text. -/
theorem findSub_fence7_wrap_none (cs : List Char) (h : btick ∉ cs) :
    findSub (btick :: cs ++ [btick]) fence7 = none := by
  have hm : matchesAt fence7 (btick :: cs ++ [btick]) = false := by
    cases cs with
    | nil => decide
    | cons x t =>
      have hxb : (btick == x) = false :=
        beq_eq_false_iff_ne.mpr (List.ne_of_not_mem_cons h)
      show matchesAt (btick :: (btick :: ([btick] ++ ['j', 's', 'o', 'n'])))
        (btick :: (x :: t) ++ [btick]) = false
      simp [matchesAt, hxb]
  rw [show findSub (btick :: cs ++ [btick]) fence7
      = (if matchesAt fence7 (btick :: cs ++ [btick]) = true then some 0
         else (findSub (cs ++ [btick]) fence7).map (· + 1)) from rfl]
  rw [hm]
  simp only [Bool.false_eq_true, if_false]
  rw [findSub_fence7_tail_none cs h]
  rfl

/-- `dropWhile` is the identity on a list whose head fails the
predicate. -/
theorem dropWhile_cons_false {p : Char → Bool} {c : Char} (cs : List Char)
    (h : p c = false) : (c :: cs).dropWhile p = c :: cs := by
  simp [List.dropWhile_cons, h]

/-- `trimChars` is the identity when both ends are non-whitespace. -/
theorem trimChars_eq_self (cs : List Char)
    (hh : ∀ c, cs.head? = some c → isSpaceCh c = false)
    (hl : ∀ c, cs.getLast? = some c → isSpaceCh c = false) :
    trimChars cs = cs := by
  cases cs with
  | nil => rfl
  | cons c t =>
    unfold trimChars
    rw [dropWhile_cons_false t (hh c rfl)]
    cases hrev : (c :: t).reverse with
    | nil => exact absurd hrev (by simp)
    | cons d u =>
      have hd : (c :: t).getLast? = some d := by
        rw [← List.head?_reverse, hrev]
        rfl
      rw [dropWhile_cons_false u (hl d hd), ← hrev, List.reverse_reverse]

/-- Stripping the newline wrap of the fenced form recovers the body
when its ends are non-whitespace. -/
theorem trimChars_nl_wrap (cs : List Char)
    (hne : cs ≠ [])
    (hh : ∀ c, cs.head? = some c → isSpaceCh c = false)
    (hl : ∀ c, cs.getLast? = some c → isSpaceCh c = false) :
    trimChars ('\n' :: cs ++ ['\n']) = cs := by
  cases cs with
  | nil => exact absurd rfl hne
  | cons c t =>
    unfold trimChars
    rw [show (('\n' :: (c :: t) ++ ['\n']).dropWhile isSpaceCh)
        = ((c :: t) ++ ['\n']).dropWhile isSpaceCh from by
      simp [List.dropWhile_cons, isSpaceCh]]
    rw [show ((c :: t) ++ ['\n']) = c :: (t ++ ['\n']) from rfl]
    rw [dropWhile_cons_false (t ++ ['\n']) (hh c rfl)]
    rw [show (c :: (t ++ ['\n'])) = (c :: t) ++ ['\n'] from rfl]
    rw [List.reverse_append]
    rw [show (['\n'].reverse ++ (c :: t).reverse)
        = '\n' :: (c :: t).reverse from rfl]
    rw [show (('\n' :: (c :: t).reverse).dropWhile isSpaceCh)
        = ((c :: t).reverse).dropWhile isSpaceCh from by
      simp [List.dropWhile_cons, isSpaceCh]]
    cases hrev : (c :: t).reverse with
    | nil => exact absurd hrev (by simp)
    | cons d u =>
      have hd : (c :: t).getLast? = some d := by
        rw [← List.head?_reverse, hrev]
        rfl
      rw [dropWhile_cons_false u (hl d hd), ← hrev, List.reverse_reverse]

/-- Stripping all backticks from a single-btick wrap recovers the body
when its ends are not backticks. -/
theorem stripAll_btick_wrap (cs : List Char)
    (hne : cs ≠ [])
    (hh : ∀ c, cs.head? = some c → (c == btick) = false)
    (hl : ∀ c, cs.getLast? = some c → (c == btick) = false) :
    stripAll btick (btick :: cs ++ [btick]) = cs := by
  cases cs with
  | nil => exact absurd rfl hne
  | cons c t =>
    unfold stripAll
    rw [show ((btick :: (c :: t) ++ [btick]).dropWhile (· == btick))
        = ((c :: t) ++ [btick]).dropWhile (· == btick) from by
      simp [List.dropWhile_cons]]
    rw [show ((c :: t) ++ [btick]) = c :: (t ++ [btick]) from rfl]
    rw [@dropWhile_cons_false (fun x => x == btick) c (t ++ [btick]) (hh c rfl)]
    rw [show (c :: (t ++ [btick])) = (c :: t) ++ [btick] from rfl]
    rw [List.reverse_append]
    rw [show ([btick].reverse ++ (c :: t).reverse)
        = btick :: (c :: t).reverse from rfl]
    rw [show ((btick :: (c :: t).reverse).dropWhile (· == btick))
        = ((c :: t).reverse).dropWhile (· == btick) from by
      simp [List.dropWhile_cons]]
    cases hrev : (c :: t).reverse with
    | nil => exact absurd hrev (by simp)
    | cons d u =>
      have hd : (c :: t).getLast? = some d := by
        rw [← List.head?_reverse, hrev]
        rfl
      rw [@dropWhile_cons_false (fun x => x == btick) d u (hl d hd), ← hrev,
        List.reverse_reverse]

/-- A disciplined brace span: scanning from `n`, the running count
stays strictly positive after every non-final character and returns to
zero exactly at the final character, which is a closing brace.  Honest
single-object JSON serializations without braces inside string literals
satisfy this from `n = 0`. -/
def strictBraces : List Char → Int → Bool
  | [], _ => false
  | c :: rest, n =>
    let m := if c == lbrace then n + 1 else if c == rbrace then n - 1 else n
    if rest.isEmpty then c == rbrace && m == 0
    else decide (0 < m) && strictBraces rest m

/-- On a disciplined span whose full text parses, the balanced-brace
scan returns exactly that span, whatever trails it. -/
theorem braceLoop_strict {j : Json} :
    ∀ (cs tl taken : List Char) (count : Int), 0 ≤ count →
      strictBraces cs count = true →
      parseJson (String.mk (taken ++ cs)) = some j →
      braceLoop (cs ++ tl) taken count = some (taken ++ cs) := by
  intro cs
  induction cs with
  | nil => intro tl taken count _ hs _; exact absurd hs (by simp [strictBraces])
  | cons c rest ih =>
    intro tl taken count hc hs hp
    cases rest with
    | nil =>
      have hs2 : (c == rbrace && ((if c == lbrace then count + 1
          else if c == rbrace then count - 1 else count) == 0)) = true := by
        simpa [strictBraces] using hs
      have hboth : (c == rbrace) = true ∧ ((if c == lbrace then count + 1
          else if c == rbrace then count - 1 else count) == 0) = true := by
        simpa using hs2
      have hcr : (c == rbrace) = true := hboth.1
      have hm : ((if c == lbrace then count + 1
          else if c == rbrace then count - 1 else count) == 0) = true := hboth.2
      have hcl : (c == lbrace) = false := by
        have : c = rbrace := by simpa using hcr
        rw [this]
        decide
      rw [hcl] at hm
      simp only [Bool.false_eq_true, if_false, hcr, if_true] at hm
      show braceLoop (c :: tl) taken count = some (taken ++ [c])
      unfold braceLoop
      rw [hcl]
      simp only [Bool.false_eq_true, if_false, hcr, if_true, hm]
      rw [hp]
      rfl
    | cons d rest2 =>
      have hs2 : (decide (0 < (if c == lbrace then count + 1
          else if c == rbrace then count - 1 else count))
          && strictBraces (d :: rest2) (if c == lbrace then count + 1
          else if c == rbrace then count - 1 else count)) = true := by
        simpa [strictBraces] using hs
      have hboth : (decide (0 < (if c == lbrace then count + 1
          else if c == rbrace then count - 1 else count))) = true
          ∧ strictBraces (d :: rest2) (if c == lbrace then count + 1
          else if c == rbrace then count - 1 else count) = true := by
        simpa using hs2
      have hpos : 0 < (if c == lbrace then count + 1
          else if c == rbrace then count - 1 else count) := by
        simpa using hboth.1
      have hrest : strictBraces (d :: rest2) (if c == lbrace then count + 1
          else if c == rbrace then count - 1 else count) = true := hboth.2
      have happ : taken ++ c :: d :: rest2 = (taken ++ [c]) ++ (d :: rest2) := by
        simp
      show braceLoop (c :: ((d :: rest2) ++ tl)) taken count = some (taken ++ c :: d :: rest2)
      unfold braceLoop
      by_cases hcl : (c == lbrace) = true
      · rw [hcl]
        simp only [if_true]
        rw [hcl] at hpos hrest
        simp only [if_true] at hpos hrest
        rw [happ] at hp ⊢
        exact ih tl (taken ++ [c]) (count + 1) (by omega) hrest hp
      · rw [Bool.not_eq_true] at hcl
        rw [hcl]
        simp only [Bool.false_eq_true, if_false]
        rw [hcl] at hpos hrest
        simp only [Bool.false_eq_true, if_false] at hpos hrest
        by_cases hcr : (c == rbrace) = true
        · rw [hcr]
          simp only [if_true]
          rw [hcr] at hpos hrest
          simp only [if_true] at hpos hrest
          have hne0 : (count - 1 == 0) = false := by
            have : ¬(count - 1 = 0) := by omega
            simpa using this
          rw [hne0]
          simp only [Bool.false_eq_true, if_false]
          rw [happ] at hp ⊢
          exact ih tl (taken ++ [c]) (count - 1) (by omega) hrest hp
        · rw [Bool.not_eq_true] at hcr
          rw [hcr]
          simp only [Bool.false_eq_true, if_false]
          rw [hcr] at hpos hrest
          simp only [Bool.false_eq_true, if_false] at hpos hrest
          rw [happ] at hp ⊢
          exact ih tl (taken ++ [c]) count (by omega) hrest hp

/-- A nonempty needle is found at position 0 of its own extension. -/
theorem findSub_self_head (needle rest : List Char) (hn : needle ≠ []) :
    findSub (needle ++ rest) needle = some 0 := by
  cases needle with
  | nil => exact absurd rfl hn
  | cons n nt =>
    show findSub (n :: (nt ++ rest)) (n :: nt) = some 0
    unfold findSub
    rw [show (n :: (nt ++ rest)) = (n :: nt) ++ rest from rfl,
      matchesAt_append_self (n :: nt) rest]
    rfl

/-- The raw-object form: the defensive extractor returns a trimmed,
btick-free, brace-disciplined JSON object serialization unchanged. -/
theorem extract_raw (s : String) (j : Json)
    (hparse : parseJson s = some j) (hne : s.data ≠ [])
    (hnb : btick ∉ s.data) (hhead : s.data.head? = some lbrace)
    (hlast : s.data.getLast? = some rbrace)
    (hstrict : strictBraces s.data 0 = true) :
    extract_json_from_response s = some s := by
  have hh : ∀ c, s.data.head? = some c → isSpaceCh c = false := by
    intro c hc
    rw [hhead] at hc
    have : c = lbrace := by simpa using hc.symm
    rw [this]
    decide
  have hl : ∀ c, s.data.getLast? = some c → isSpaceCh c = false := by
    intro c hc
    rw [hlast] at hc
    have : c = rbrace := by simpa using hc.symm
    rw [this]
    decide
  have htrim : trimChars s.data = s.data := trimChars_eq_self s.data hh hl
  have hem : ¬(s.data.isEmpty = true) := by
    rw [List.isEmpty_iff]
    exact hne
  have hmd : mdBranch s.data = none := by
    unfold mdBranch
    rw [show fence7 = btick :: [btick, btick, 'j', 's', 'o', 'n'] from rfl,
      findSub_none_headfree btick [btick, btick, 'j', 's', 'o', 'n'] s.data hnb]
  have hbt : btickBranch s.data = none := by
    unfold btickBranch
    rw [hhead]
    rw [show ((some lbrace == some btick) : Bool) = false from by decide]
    simp
  have hbr : braceBranch s.data = some s.data := by
    unfold braceBranch
    obtain ⟨t, ht⟩ : ∃ t, s.data = lbrace :: t := by
      cases hsd : s.data with
      | nil => rw [hsd] at hhead; exact absurd hhead (by simp)
      | cons x xs =>
        rw [hsd] at hhead
        have hx : x = lbrace := by simpa using hhead
        exact ⟨xs, by rw [hx]⟩
    rw [show findSub s.data [lbrace] = some 0 from by
      rw [ht]
      exact findSub_single_at lbrace t [] (by simp)]
    show braceLoop (s.data.drop 0) [] 0 = some s.data
    have h2 := braceLoop_strict (j := j) s.data [] [] 0 (le_refl 0) hstrict
      (by simpa using hparse)
    rw [List.append_nil] at h2
    simpa using h2
  unfold extract_json_from_response
  rw [htrim, if_neg hem, hmd, hbt, hbr]

example :
    extract_json_from_response "\x7b\"a\": \"1\"\x7d" = some "\x7b\"a\": \"1\"\x7d" :=
  extract_raw "\x7b\"a\": \"1\"\x7d" (Json.obj [("a", Json.str "1")])
    rfl (by decide) (by decide) (by decide) (by decide) (by decide)

/-- Both ends of a brace-delimited serialization are non-whitespace. -/
theorem obj_ends_nonspace (s : String) (hhead : s.data.head? = some lbrace)
    (hlast : s.data.getLast? = some rbrace) :
    (∀ c, s.data.head? = some c → isSpaceCh c = false)
    ∧ (∀ c, s.data.getLast? = some c → isSpaceCh c = false) := by
  constructor
  · intro c hc
    rw [hhead] at hc
    have hcl : c = lbrace := by simpa using hc.symm
    rw [hcl]
    decide
  · intro c hc
    rw [hlast] at hc
    have hcr : c = rbrace := by simpa using hc.symm
    rw [hcr]
    decide

/-- The labeled-fence form: the defensive extractor recovers the body
of a fenced serialization exactly. -/
theorem extract_fenced (s : String)
    (hne : s.data ≠ []) (hnb : btick ∉ s.data)
    (hhead : s.data.head? = some lbrace) (hlast : s.data.getLast? = some rbrace) :
    extract_json_from_response ("```json\n" ++ s ++ "\n```") = some s := by
  obtain ⟨hh, hl⟩ := obj_ends_nonspace s hhead hlast
  have hdata : ("```json\n" ++ s ++ "\n```").data
      = fence7 ++ ('\n' :: (s.data ++ '\n' :: fence3)) := by
    rw [data_append, data_append]
    rw [show ("```json\n").data = fence7 ++ ['\n'] from by decide]
    rw [show ("\n```").data = '\n' :: fence3 from by decide]
    simp
  have hh2 : ∀ c, ("```json\n" ++ s ++ "\n```").data.head? = some c → isSpaceCh c = false := by
    intro c hc
    rw [hdata] at hc
    have hcb : c = btick := by
      have : (fence7 ++ ('\n' :: (s.data ++ '\n' :: fence3))).head? = some btick := rfl
      rw [this] at hc
      simpa using hc.symm
    rw [hcb]
    decide
  have hl2 : ∀ c, ("```json\n" ++ s ++ "\n```").data.getLast? = some c → isSpaceCh c = false := by
    intro c hc
    rw [hdata] at hc
    rw [show fence7 ++ ('\n' :: (s.data ++ '\n' :: fence3))
        = (fence7 ++ ('\n' :: s.data) ++ ['\n', btick, btick]) ++ [btick] from by
      simp [fence3]] at hc
    rw [List.getLast?_concat] at hc
    have hcb : c = btick := by simpa using hc.symm
    rw [hcb]
    decide
  have htrim : trimChars ("```json\n" ++ s ++ "\n```").data
      = ("```json\n" ++ s ++ "\n```").data :=
    trimChars_eq_self _ hh2 hl2
  have hemf : (("```json\n" ++ s ++ "\n```").data).isEmpty = false := by
    rw [hdata]
    rfl
  have e1 : findSub (fence7 ++ ('\n' :: (s.data ++ '\n' :: fence3))) fence7 = some 0 :=
    findSub_self_head fence7 _ (by decide)
  have e2 : (fence7 ++ ('\n' :: (s.data ++ '\n' :: fence3))).drop (0 + 7)
      = ('\n' :: s.data ++ ['\n']) ++ fence3 := by
    rw [show ((0 : Nat) + 7) = fence7.length from rfl, List.drop_left]
    simp
  have e3 : findSub (('\n' :: s.data ++ ['\n']) ++ fence3) fence3
      = some ('\n' :: s.data ++ ['\n']).length := by
    apply findSub_fence3_at_end
    intro hmem
    rcases List.mem_cons.mp hmem with h | h
    · exact absurd h (by decide)
    · rcases List.mem_append.mp h with h2 | h2
      · exact hnb h2
      · exact absurd (List.mem_singleton.mp h2) (by decide)
  have e4 : (('\n' :: s.data ++ ['\n']) ++ fence3).take ('\n' :: s.data ++ ['\n']).length
      = '\n' :: s.data ++ ['\n'] := List.take_left _ _
  have e5 : trimChars ('\n' :: s.data ++ ['\n']) = s.data :=
    trimChars_nl_wrap s.data hne hh hl
  have hmd : mdBranch (fence7 ++ ('\n' :: (s.data ++ '\n' :: fence3))) = some s.data := by
    unfold mdBranch
    simp only [e1, e2, e3, e4, e5]
    rw [show (s.data).isEmpty = false from by
      cases hsd : s.data with
      | nil => exact absurd hsd hne
      | cons x xs => rfl]
    rfl
  unfold extract_json_from_response
  rw [htrim, hemf, hdata, hmd]
  rfl

/-- The generic-backtick form: the defensive extractor recovers the
wrapped serialization exactly. -/
theorem extract_bticked (s : String)
    (hne : s.data ≠ []) (hnb : btick ∉ s.data)
    (hhead : s.data.head? = some lbrace) (hlast : s.data.getLast? = some rbrace) :
    extract_json_from_response ("`" ++ s ++ "`") = some s := by
  obtain ⟨hh, hl⟩ := obj_ends_nonspace s hhead hlast
  have hdata : ("`" ++ s ++ "`").data = btick :: s.data ++ [btick] := by
    rw [data_append, data_append]
    rw [show ("`").data = [btick] from by decide]
    simp
  have hc2 : (btick :: s.data ++ [btick]).getLast? = some btick := by
    rw [show btick :: s.data ++ [btick] = (btick :: s.data) ++ [btick] from rfl,
      List.getLast?_concat]
  have hh2 : ∀ c, ("`" ++ s ++ "`").data.head? = some c → isSpaceCh c = false := by
    intro c hc
    rw [hdata] at hc
    have hcb : c = btick := by simpa using hc.symm
    rw [hcb]
    decide
  have hl2 : ∀ c, ("`" ++ s ++ "`").data.getLast? = some c → isSpaceCh c = false := by
    intro c hc
    rw [hdata, hc2] at hc
    have hcb : c = btick := by simpa using hc.symm
    rw [hcb]
    decide
  have htrim : trimChars ("`" ++ s ++ "`").data = ("`" ++ s ++ "`").data :=
    trimChars_eq_self _ hh2 hl2
  have hemf : (("`" ++ s ++ "`").data).isEmpty = false := by
    rw [hdata]
    rfl
  have hmd : mdBranch (btick :: s.data ++ [btick]) = none := by
    unfold mdBranch
    rw [findSub_fence7_wrap_none s.data hnb]
  have hstrip : stripAll btick (btick :: s.data ++ [btick]) = s.data := by
    apply stripAll_btick_wrap s.data hne
    · intro c hc
      rw [hhead] at hc
      have : c = lbrace := by simpa using hc.symm
      rw [this]
      decide
    · intro c hc
      rw [hlast] at hc
      have : c = rbrace := by simpa using hc.symm
      rw [this]
      decide
  have hbt : btickBranch (btick :: s.data ++ [btick]) = some s.data := by
    unfold btickBranch
    rw [show ((btick :: s.data ++ [btick]).head? == some btick) = true from by
      simp]
    rw [hc2]
    rw [show ((some btick == some btick) : Bool) = true from by decide]
    simp only [Bool.and_self, if_true]
    rw [hstrip, trimChars_eq_self s.data hh hl]
    rw [show (s.data).isEmpty = false from by
      cases hsd : s.data with
      | nil => exact absurd hsd hne
      | cons x xs => rfl]
    rfl
  unfold extract_json_from_response
  rw [htrim, hemf, hdata, hmd, hbt]
  rfl

/-- The prose-embedded form: the defensive extractor recovers a
brace-disciplined object serialization from surrounding prose via the
balanced-brace scan, provided the prose carries no backtick, the head
side carries no opening brace, and the wrap does not disturb the
strip. -/
theorem extract_prose (s pre post : String) (j : Json)
    (hparse : parseJson s = some j) (hne : s.data ≠ [])
    (hnb : btick ∉ s.data)
    (hhead : s.data.head? = some lbrace) (hlast : s.data.getLast? = some rbrace)
    (hstrict : strictBraces s.data 0 = true)
    (hpre1 : btick ∉ pre.data) (hpre2 : lbrace ∉ pre.data)
    (hpreHead : ∀ c, pre.data.head? = some c → isSpaceCh c = false)
    (hpost1 : btick ∉ post.data)
    (hpostLast : ∀ c, post.data.getLast? = some c → isSpaceCh c = false) :
    extract_json_from_response (pre ++ s ++ post) = some s := by
  obtain ⟨hh, hl⟩ := obj_ends_nonspace s hhead hlast
  have hdata : (pre ++ s ++ post).data = pre.data ++ (s.data ++ post.data) := by
    rw [data_append, data_append]
    simp
  obtain ⟨t, ht⟩ : ∃ t, s.data = lbrace :: t := by
    cases hsd : s.data with
    | nil => rw [hsd] at hhead; exact absurd hhead (by simp)
    | cons x xs =>
      rw [hsd] at hhead
      have hx : x = lbrace := by simpa using hhead
      exact ⟨xs, by rw [hx]⟩
  have hnb3 : btick ∉ pre.data ++ (s.data ++ post.data) := by
    intro hmem
    rcases List.mem_append.mp hmem with h | h
    · exact hpre1 h
    · rcases List.mem_append.mp h with h2 | h2
      · exact hnb h2
      · exact hpost1 h2
  have hwHead : ∃ c0, (pre.data ++ (s.data ++ post.data)).head? = some c0
      ∧ isSpaceCh c0 = false ∧ (c0 == btick) = false := by
    cases hp : pre.data with
    | nil =>
      refine ⟨lbrace, ?_, by decide, by decide⟩
      rw [List.nil_append, ht]
      rfl
    | cons c cs =>
      refine ⟨c, rfl, hpreHead c (by rw [hp]; rfl), ?_⟩
      apply beq_eq_false_iff_ne.mpr
      intro hcb
      exact hpre1 (by rw [hp, hcb]; exact List.mem_cons_self btick cs)
  have hwLast : ∃ c1, (pre.data ++ (s.data ++ post.data)).getLast? = some c1
      ∧ isSpaceCh c1 = false := by
    cases hq : post.data with
    | nil =>
      refine ⟨rbrace, ?_, by decide⟩
      rw [List.append_nil, List.getLast?_append, hlast]
      rfl
    | cons d ds =>
      obtain ⟨c1, hc1⟩ : ∃ c1, (d :: ds).getLast? = some c1 := by
        cases hrev : (d :: ds).reverse with
        | nil => exact absurd hrev (by simp)
        | cons e u =>
          refine ⟨e, ?_⟩
          rw [← List.head?_reverse, hrev]
          rfl
      refine ⟨c1, ?_, hpostLast c1 (by rw [hq]; exact hc1)⟩
      rw [List.getLast?_append, List.getLast?_append, hc1]
      rfl
  obtain ⟨c0, hc0, hc0s, hc0b⟩ := hwHead
  obtain ⟨c1, hc1, hc1s⟩ := hwLast
  have htrim : trimChars ((pre ++ s ++ post)).data = ((pre ++ s ++ post)).data := by
    rw [hdata]
    apply trimChars_eq_self
    · intro c hc
      rw [hc0] at hc
      have : c = c0 := by simpa using hc.symm
      rw [this]
      exact hc0s
    · intro c hc
      rw [hc1] at hc
      have : c = c1 := by simpa using hc.symm
      rw [this]
      exact hc1s
  have hemf : ((pre ++ s ++ post)).data.isEmpty = false := by
    rw [hdata]
    cases hp : pre.data with
    | nil =>
      rw [List.nil_append, ht]
      rfl
    | cons c cs => rfl
  have hmd : mdBranch (pre.data ++ (s.data ++ post.data)) = none := by
    unfold mdBranch
    rw [show fence7 = btick :: [btick, btick, 'j', 's', 'o', 'n'] from rfl,
      findSub_none_headfree btick [btick, btick, 'j', 's', 'o', 'n'] _ hnb3]
  have hbt : btickBranch (pre.data ++ (s.data ++ post.data)) = none := by
    unfold btickBranch
    rw [hc0]
    rw [show ((some c0 == some btick) : Bool) = false from by
      simpa using hc0b]
    simp
  have hbr : braceBranch (pre.data ++ (s.data ++ post.data)) = some s.data := by
    unfold braceBranch
    rw [show findSub (pre.data ++ (s.data ++ post.data)) [lbrace]
        = some pre.data.length from by
      rw [ht]
      rw [show pre.data ++ (lbrace :: t ++ post.data)
          = pre.data ++ lbrace :: (t ++ post.data) from by simp]
      exact findSub_single_at lbrace (t ++ post.data) pre.data hpre2]
    show braceLoop ((pre.data ++ (s.data ++ post.data)).drop pre.data.length) [] 0
      = some s.data
    rw [List.drop_left]
    have h2 := braceLoop_strict (j := j) s.data post.data [] 0 (le_refl 0) hstrict
      (by simpa using hparse)
    simpa using h2
  unfold extract_json_from_response
  rw [htrim, hemf, hdata, hmd, hbt, hbr]
  rfl

/-- Field-mapping inline parsing recovers a raw object serialization. -/
theorem s25_raw (s : String) (j : Json) (hparse : parseJson s = some j)
    (hnb : btick ∉ s.data) (hhead : s.data.head? = some lbrace)
    (hlast : s.data.getLast? = some rbrace) :
    stage2_5_loads s = some j := by
  obtain ⟨hh, hl⟩ := obj_ends_nonspace s hhead hlast
  have hfs : findSub s.data fence7 = none := by
    rw [show fence7 = btick :: [btick, btick, 'j', 's', 'o', 'n'] from rfl]
    exact findSub_none_headfree btick _ s.data hnb
  have hcond : (s.data.head? == some btick) = false := by
    rw [hhead]
    decide
  unfold stage2_5_loads stage2_5_textExtract
  simp only [hfs, hcond, Bool.false_and, Bool.false_eq_true, if_false]
  rw [show trimStr s = s from by
    unfold trimStr
    rw [trimChars_eq_self s.data hh hl]]
  exact hparse

/-- Field-mapping inline parsing recovers a labeled-fence-wrapped
object serialization. -/
theorem s25_fenced (s : String) (j : Json) (hparse : parseJson s = some j)
    (hne : s.data ≠ []) (hnb : btick ∉ s.data)
    (hhead : s.data.head? = some lbrace) (hlast : s.data.getLast? = some rbrace) :
    stage2_5_loads ("```json\n" ++ s ++ "\n```") = some j := by
  obtain ⟨hh, hl⟩ := obj_ends_nonspace s hhead hlast
  have hdata : ("```json\n" ++ s ++ "\n```").data
      = fence7 ++ ('\n' :: (s.data ++ '\n' :: fence3)) := by
    rw [data_append, data_append]
    rw [show ("```json\n").data = fence7 ++ ['\n'] from by decide]
    rw [show ("\n```").data = '\n' :: fence3 from by decide]
    simp
  have e1 : findSub (fence7 ++ ('\n' :: (s.data ++ '\n' :: fence3))) fence7 = some 0 :=
    findSub_self_head fence7 _ (by decide)
  have e2 : (fence7 ++ ('\n' :: (s.data ++ '\n' :: fence3))).drop (0 + 7)
      = ('\n' :: s.data ++ ['\n']) ++ fence3 := by
    rw [show ((0 : Nat) + 7) = fence7.length from rfl, List.drop_left]
    simp
  have e3 : findSub (('\n' :: s.data ++ ['\n']) ++ fence3) fence3
      = some ('\n' :: s.data ++ ['\n']).length := by
    apply findSub_fence3_at_end
    intro hmem
    rcases List.mem_cons.mp hmem with h | h
    · exact absurd h (by decide)
    · rcases List.mem_append.mp h with h2 | h2
      · exact hnb h2
      · exact absurd (List.mem_singleton.mp h2) (by decide)
  have e4 : (('\n' :: s.data ++ ['\n']) ++ fence3).take ('\n' :: s.data ++ ['\n']).length
      = '\n' :: s.data ++ ['\n'] := List.take_left _ _
  have e5 : trimChars ('\n' :: s.data ++ ['\n']) = s.data :=
    trimChars_nl_wrap s.data hne hh hl
  unfold stage2_5_loads stage2_5_textExtract
  rw [hdata]
  simp only [e1, e2, e3, e4]
  rw [show trimStr (String.mk ('\n' :: s.data ++ ['\n'])) = s from by
    unfold trimStr
    rw [show (String.mk ('\n' :: s.data ++ ['\n'])).data
        = '\n' :: s.data ++ ['\n'] from rfl]
    rw [e5]]
  exact hparse

/-- Field-mapping inline parsing recovers a backtick-wrapped object
serialization. -/
theorem s25_bticked (s : String) (j : Json) (hparse : parseJson s = some j)
    (hne : s.data ≠ []) (hnb : btick ∉ s.data)
    (hhead : s.data.head? = some lbrace) (hlast : s.data.getLast? = some rbrace) :
    stage2_5_loads ("`" ++ s ++ "`") = some j := by
  obtain ⟨hh, hl⟩ := obj_ends_nonspace s hhead hlast
  have hdata : ("`" ++ s ++ "`").data = btick :: s.data ++ [btick] := by
    rw [data_append, data_append]
    rw [show ("`").data = [btick] from by decide]
    simp
  have hc2 : (btick :: s.data ++ [btick]).getLast? = some btick := by
    rw [show btick :: s.data ++ [btick] = (btick :: s.data) ++ [btick] from rfl,
      List.getLast?_concat]
  have hfs : findSub (btick :: s.data ++ [btick]) fence7 = none :=
    findSub_fence7_wrap_none s.data hnb
  have hstrip : stripAll btick (btick :: s.data ++ [btick]) = s.data := by
    apply stripAll_btick_wrap s.data hne
    · intro c hc
      rw [hhead] at hc
      have : c = lbrace := by simpa using hc.symm
      rw [this]
      decide
    · intro c hc
      rw [hlast] at hc
      have : c = rbrace := by simpa using hc.symm
      rw [this]
      decide
  unfold stage2_5_loads stage2_5_textExtract
  rw [hdata]
  simp only [hfs]
  rw [show ((btick :: s.data ++ [btick]).head? == some btick
      && (btick :: s.data ++ [btick]).getLast? == some btick) = true from by
    rw [hc2]
    rfl]
  simp only [if_true]
  rw [hstrip]
  rw [show trimStr (String.mk s.data) = s from by
    unfold trimStr
    rw [show (String.mk s.data).data = s.data from rfl]
    rw [trimChars_eq_self s.data hh hl]]
  exact hparse

/-- Counterexample to claim C3 as stated: the four-form defensive
parsing does NOT apply to both oracle uses.  For a prose-embedded JSON
object, the multimodal client's parser (`_extract_json_from_response`
plus `json.loads`) recovers the object, while the field-mapping
client's inline parsing (`stage2_5`) has no balanced-brace fallback and
yields the empty FillMap instead of an equivalent parsed object. -/
theorem c3_oracle_response_recovery_counterexample :
    stage2_1_parse "The mapping is \x7b\"a\": \"1\"\x7d thanks"
      = some (Json.obj [("a", Json.str "1")])
    ∧ stage2_5_ai_generate_fill_data
        (OracleReply.content (some "The mapping is \x7b\"a\": \"1\"\x7d thanks"))
      = Json.obj []
    ∧ Json.obj [("a", Json.str "1")] ≠ Json.obj [] :=
  ⟨rfl, rfl, by simp⟩

/-- Claim C3 amended: for an oracle response carrying a trimmed,
backtick-free, brace-disciplined JSON object serialization, the
multimodal client's defensive parser recovers the equivalent parsed
object from all four forms — raw, labeled-fence-wrapped,
backtick-wrapped, and prose-embedded (via the outermost balanced-brace
span) — while the field-mapping client's inline parsing recovers it
from the raw and the two fenced forms only (its prose-embedded failure
is the counterexample's soft empty-FillMap path). -/
theorem c3_oracle_response_recovery_amended (s pre post : String) (j : Json)
    (hparse : parseJson s = some j) (hne : s.data ≠ [])
    (hnb : btick ∉ s.data)
    (hhead : s.data.head? = some lbrace) (hlast : s.data.getLast? = some rbrace)
    (hstrict : strictBraces s.data 0 = true)
    (hpre1 : btick ∉ pre.data) (hpre2 : lbrace ∉ pre.data)
    (hpreHead : ∀ c, pre.data.head? = some c → isSpaceCh c = false)
    (hpost1 : btick ∉ post.data)
    (hpostLast : ∀ c, post.data.getLast? = some c → isSpaceCh c = false) :
    stage2_1_parse s = some j
    ∧ stage2_1_parse ("```json\n" ++ s ++ "\n```") = some j
    ∧ stage2_1_parse ("`" ++ s ++ "`") = some j
    ∧ stage2_1_parse (pre ++ s ++ post) = some j
    ∧ stage2_5_loads s = some j
    ∧ stage2_5_loads ("```json\n" ++ s ++ "\n```") = some j
    ∧ stage2_5_loads ("`" ++ s ++ "`") = some j := by
  refine ⟨?_, ?_, ?_, ?_, s25_raw s j hparse hnb hhead hlast,
    s25_fenced s j hparse hne hnb hhead hlast,
    s25_bticked s j hparse hne hnb hhead hlast⟩
  · unfold stage2_1_parse
    rw [extract_raw s j hparse hne hnb hhead hlast hstrict]
    exact hparse
  · unfold stage2_1_parse
    rw [extract_fenced s hne hnb hhead hlast]
    exact hparse
  · unfold stage2_1_parse
    rw [extract_bticked s hne hnb hhead hlast]
    exact hparse
  · unfold stage2_1_parse
    rw [extract_prose s pre post j hparse hne hnb hhead hlast hstrict hpre1 hpre2
      hpreHead hpost1 hpostLast]
    exact hparse

/-- Witness for the amended C3 at a concrete object serialization and
prose wrap. -/
theorem c3_oracle_response_recovery_amended_witness :
    stage2_1_parse "\x7b\"a\": \"1\"\x7d" = some (Json.obj [("a", Json.str "1")])
    ∧ stage2_1_parse ("```json\n" ++ "\x7b\"a\": \"1\"\x7d" ++ "\n```")
        = some (Json.obj [("a", Json.str "1")])
    ∧ stage2_1_parse ("`" ++ "\x7b\"a\": \"1\"\x7d" ++ "`")
        = some (Json.obj [("a", Json.str "1")])
    ∧ stage2_1_parse ("Result:" ++ "\x7b\"a\": \"1\"\x7d" ++ ";ok")
        = some (Json.obj [("a", Json.str "1")])
    ∧ stage2_5_loads "\x7b\"a\": \"1\"\x7d" = some (Json.obj [("a", Json.str "1")])
    ∧ stage2_5_loads ("```json\n" ++ "\x7b\"a\": \"1\"\x7d" ++ "\n```")
        = some (Json.obj [("a", Json.str "1")])
    ∧ stage2_5_loads ("`" ++ "\x7b\"a\": \"1\"\x7d" ++ "`")
        = some (Json.obj [("a", Json.str "1")]) :=
  c3_oracle_response_recovery_amended "\x7b\"a\": \"1\"\x7d" "Result:" ";ok"
    (Json.obj [("a", Json.str "1")])
    rfl (by decide) (by decide) (by decide) (by decide) (by decide)
    (by decide) (by decide)
    (by
      intro c hc
      have : c = 'R' := by simpa using hc.symm
      rw [this]
      decide)
    (by decide)
    (by
      intro c hc
      have : c = 'k' := by simpa using hc.symm
      rw [this]
      decide)
